import Mathlib

/-!
Verification of the dbase-rs field codec.

This development shallowly embeds `src/record/field.rs` of the dbase-rs
repository: the per-type field value codec (decode `FieldValue::read_from`,
encode `WritableAsDbaseField::write_as`), the padding-trim routine
`trim_field_data`, the Julian-day calendar arithmetic on `Date`, and the
memo-file block reader `MemoReader::read_data_at` with its three dialects.

Modelling conventions:
* Bytes are `Nat` values below 256; byte strings are `List Nat`.
* Rust `u8`/`u16`/`u32` arithmetic is modelled on `Nat`; where the source can
  wrap around (`u32` subtraction and multiplication in the memo reader) the
  embedding takes the result modulo `2 ^ 32` explicitly.  `i32` values that
  are provably nonnegative on every path exercised by a claim (Julian day
  numbers, time words) are modelled as `Nat`, with Rust's truncating division
  on nonnegative operands agreeing with `Nat` division.
* A Rust panic (out-of-bounds indexing, `unimplemented!`) is modelled by a
  dedicated `crash` outcome.
* `f64`/`f32` values reached only through their decimal-text representation
  (the `Numeric`/`Float` codec paths) are modelled as exact decimal numbers
  (`Decimal` below); `f64` values reached only through their little-endian
  byte representation (`Currency`/`Double`/`Integer` paths) are modelled by
  their bit pattern as a `Nat`.  Equality of two such values coincides with
  Rust `==` on the values exercised here (no NaNs, no mixed-scale aliases).
* The character-encoding subsystem is an external collaborator of the core
  (spec section 1); it is modelled as the identity codec on bytes.
-/

namespace DbaseRs

/-- ASCII decimal digits of a natural number, as bytes (most significant
first); `Nat.toDigits` is fuel-structural, so this evaluates in the kernel. -/
def nat_decimal_bytes (n : Nat) : List Nat :=
  (Nat.toDigits 10 n).map (fun c => c.toNat)

/-- Left-pad a digit string with ASCII zeros (byte 48) to width `w`,
modelling Rust's `{:0w$}` formatting. -/
def zero_pad (w : Nat) (ds : List Nat) : List Nat :=
  List.replicate (w - ds.length) 48 ++ ds

/-- Whether byte `b` is an ASCII digit. -/
def is_ascii_digit (b : Nat) : Bool := 48 ≤ b && b ≤ 57

/-- Value of a string of ASCII digit bytes, most significant first. -/
def digits_to_nat (l : List Nat) : Nat :=
  l.foldl (fun a b => a * 10 + (b - 48)) 0

/-- Little-endian value of a byte list (first byte least significant). -/
def from_le_bytes (l : List Nat) : Nat :=
  l.foldr (fun b acc => b + 256 * acc) 0

/-- The four little-endian bytes of a 32-bit value. -/
def to_le_bytes_4 (n : Nat) : List Nat :=
  [n % 256, n / 256 % 256, n / 65536 % 256, n / 16777216 % 256]

/-- The eight little-endian bytes of a 64-bit value. -/
def to_le_bytes_8 (n : Nat) : List Nat :=
  [n % 256, n / 256 % 256, n / 65536 % 256, n / 16777216 % 256,
   n / 4294967296 % 256, n / 1099511627776 % 256,
   n / 281474976710656 % 256, n / 72057594037927936 % 256]

/-- Big-endian value of a byte list (first byte most significant). -/
def from_be_bytes (l : List Nat) : Nat :=
  l.foldl (fun acc b => acc * 256 + b) 0

/-! ### Exact decimal numbers: the model of `f64`/`f32` on the text paths

A value `⟨n, d⟩` denotes the rational `n / d` where `d` is a power of ten.
`Decimal.ofScaled` keeps the representation canonical (numerator and
denominator share no factor of ten), so two canonical decimals are equal as
rationals exactly when they are structurally equal; structural equality
therefore models Rust `f64` equality on these values. -/

/-- Exact decimal number: `num / den` with `den` a power of ten. -/
structure Decimal where
  num : Int
  den : Nat
deriving DecidableEq, Repr

/-- Canonical decimal with value `n / 10 ^ k`: common factors of ten are
stripped. -/
def Decimal.ofScaled : Int → Nat → Decimal
  | n, 0 => ⟨n, 1⟩
  | n, k + 1 => if n % 10 = 0 then Decimal.ofScaled (n / 10) k else ⟨n, 10 ^ (k + 1)⟩

/-- Strip an optional ASCII sign; returns (is-negative, rest). -/
def split_sign : List Nat → Bool × List Nat
  | 43 :: r => (false, r)
  | 45 :: r => (true, r)
  | r => (false, r)

/-- Exponent suffix of a decimal-float literal: an optional sign followed by
one or more digits, consuming the whole rest.  Helper of `parse_f64`. -/
def parse_exponent (mant : Int) (fracLen : Nat) (r : List Nat) : Option Decimal :=
  let p := split_sign r
  let ed := p.2.takeWhile is_ascii_digit
  if ed.length = 0 ∨ p.2.dropWhile is_ascii_digit ≠ [] then none
  else
    let ev := digits_to_nat ed
    if p.1 then some (Decimal.ofScaled mant (fracLen + ev))
    else some (Decimal.ofScaled (mant * (10 : Int) ^ ev) fracLen)

/-- Model of Rust `str::parse::<f64>` on the decimal-literal grammar
`[+-]? (digit+ | digit+ . digit* | digit* . digit+) ([eE] [+-]? digit+)?`.
The special forms `inf`/`infinity`/`nan` and the final rounding of the exact
decimal value to binary are not modelled; no claim depends on them (the
claims observe which strings parse, and values that are exact decimals). -/
def parse_f64 (s : List Nat) : Option Decimal :=
  let p := split_sign s
  let s1 := p.2
  let intd := s1.takeWhile is_ascii_digit
  let rest := s1.dropWhile is_ascii_digit
  let q : List Nat × List Nat :=
    match rest with
    | 46 :: r => (r.takeWhile is_ascii_digit, r.dropWhile is_ascii_digit)
    | _ => ([], rest)
  if intd.length + q.1.length = 0 then none
  else
    let mantNat : Int := Int.ofNat (digits_to_nat (intd ++ q.1))
    let mant : Int := if p.1 then -mantNat else mantNat
    match q.2 with
    | [] => some (Decimal.ofScaled mant q.1.length)
    | 101 :: r => parse_exponent mant q.1.length r
    | 69 :: r => parse_exponent mant q.1.length r
    | _ => none

/-- Model of Rust `str::parse::<u32>`: optional `+`, one or more digits,
value below `2 ^ 32` (overflow is a parse error). -/
def parse_u32 (s : List Nat) : Option Nat :=
  let s1 := match s with
    | 43 :: r => r
    | l => l
  if s1 ≠ [] ∧ s1.all is_ascii_digit then
    let v := digits_to_nat s1
    if v < 4294967296 then some v else none
  else none

/-- Nearest integer to `t / d` (`d > 0`), ties away from zero handled as
round-half-up; used by `format_fixed` for nonnegative operands, where it
agrees with Rust's rounding on values whose `prec`-digit rendering is exact. -/
def round_div (t : Int) (d : Nat) : Int :=
  (2 * t + d) / (2 * d)

/-- Model of Rust `write!("{value:.prec$}")` for an `f64` holding an exact
decimal value: the value rendered with exactly `prec` fractional digits. -/
def format_fixed (x : Decimal) (prec : Nat) : List Nat :=
  let scaledAbs : Int := round_div (x.num.natAbs * 10 ^ prec) x.den
  let ds := nat_decimal_bytes scaledAbs.toNat
  let core :=
    if prec = 0 then ds
    else
      let padded := zero_pad (prec + 1) ds
      padded.take (padded.length - prec) ++ [46] ++ padded.drop (padded.length - prec)
  if x.num < 0 then 45 :: core else core

/-! ### The padding-trim routine

`trim_field_data` (`src/record/field.rs:925-960`): one pass over the slice,
tracking the first and last indices holding a byte that is neither `0x00`
(which stops the scan) nor `0x20`; Rust's `usize::MAX` "unset" sentinel for
`first` is modelled by `Option Nat`. -/

/-- The scan loop of `trim_field_data`: `i` is the index of the head of the
remaining list within the original slice. -/
def trim_loop : List Nat → Nat → Option Nat → Nat → Option Nat × Nat
  | [], _, first, last => (first, last)
  | b :: rest, i, first, last =>
    if b = 0 then (first, last)
    else if b ≠ 32 then trim_loop rest (i + 1) (some (first.getD i)) i
    else trim_loop rest (i + 1) first last

/-- `trim_field_data` (`src/record/field.rs:925-960`): returns
`&bytes[first..=last]`, or the empty slice when no byte qualifies. -/
def trim_field_data (bytes : List Nat) : List Nat :=
  match trim_loop bytes 0 none 0 with
  | (none, _) => []
  | (some first, last) => (bytes.drop first).take (last + 1 - first)

/-! ### Dates, times, Julian day numbers -/

/-- `Date` (`src/record/field.rs:393-398`): naive year/month/day, each a
`u32` in the source. -/
structure Date where
  year : Nat
  month : Nat
  day : Nat
deriving DecidableEq, Repr

/-- `Time` (`src/record/field.rs:527-532`). -/
structure Time where
  hours : Nat
  minutes : Nat
  seconds : Nat
deriving DecidableEq, Repr

/-- `DateTime` (`src/record/field.rs:592-596`). -/
structure DateTime where
  date : Date
  time : Time
deriving DecidableEq, Repr

/-- `Date::to_julian_day_number` (`src/record/field.rs:466-481`).  The source
computes in `u32` and casts the total to `i32`; both agree with `Nat`
arithmetic whenever `year ≥ 1` (so that the `year - 1` branch cannot wrap)
and the result is below `2 ^ 31`, which holds for all dates the claims range
over. -/
def Date.to_julian_day_number (d : Date) : Nat :=
  let p := if 2 < d.month then (d.month - 3, d.year) else (d.month + 9, d.year - 1)
  let month := p.1
  let year := p.2
  let century := year / 100
  let decade := year - 100 * century
  146097 * century / 4 + 1461 * decade / 4 + (153 * month + 2) / 5 + d.day + 1721119

/-- `Date::julian_day_number_to_gregorian_date` (`src/record/field.rs:436-464`)
with the Wikipedia constants `J=1401, B=274277, C=-38, Y=4716` inlined.  The
source computes in `i32` with truncating division; for every `jdn` in the
image of an in-range date all intermediate values are nonnegative (in
particular `f ≥ jdn + 1363 > 38` and `e / 1461 ≥ 4716`), so `Nat` arithmetic
with truncated subtraction agrees with the source. -/
def Date.julian_day_number_to_gregorian_date (jdn : Nat) : Date :=
  let f := jdn + 1401 + (4 * jdn + 274277) / 146097 * 3 / 4 - 38
  let e := 4 * f + 3
  let g := e % 1461 / 4
  let h := 5 * g + 2
  let day := h % 153 / 5 + 1
  let month := (h / 153 + 2) % 12 + 1
  let year := e / 1461 - 4716 + (12 + 2 - month) / 12
  ⟨year, month, day⟩

/-- `Time::from_word` (`src/record/field.rs:570-581`): successive division of
a millisecond time word by 3600000 / 60000 / 1000.  The source subtracts the
consumed part at each step; on nonnegative words this equals taking
remainders. -/
def Time.from_word (w : Nat) : Time :=
  let hours := w / 3600000
  let w1 := w - hours * 3600000
  let minutes := w1 / 60000
  let w2 := w1 - minutes * 60000
  let seconds := w2 / 1000
  ⟨hours, minutes, seconds⟩

/-- `Time::to_time_word` (`src/record/field.rs:583-588`). -/
def Time.to_time_word (t : Time) : Nat :=
  t.hours * 3600000 + t.minutes * 60000 + t.seconds * 1000

/-- Outcome of a fallible Rust computation that can also panic: `ok`/`err`
mirror `Result`, `crash` models a panic (index out of bounds,
`unimplemented!`). -/
inductive ParseOutcome (α : Type) where
  | ok (v : α)
  | err
  | crash
deriving DecidableEq, Repr

/-- Rust byte-range string indexing `s[a..b]`: panics (`none`) when `b`
exceeds the length.  The claims exercise this on ASCII content, where byte
indices and char boundaries coincide. -/
def str_slice (s : List Nat) (a b : Nat) : Option (List Nat) :=
  if b ≤ s.length then some ((s.drop a).take (b - a)) else none

/-- `impl FromStr for Date` (`src/record/field.rs:484-494`): parse
`s[0..4]`, `s[4..6]`, `s[6..8]` as `u32` year, month, day.  Each `?` on a
failed `u32` parse returns the parse error before the next slice is taken;
an out-of-range slice is a panic. -/
def Date.from_str (s : List Nat) : ParseOutcome Date :=
  match str_slice s 0 4 with
  | none => .crash
  | some ys =>
    match parse_u32 ys with
    | none => .err
    | some year =>
      match str_slice s 4 6 with
      | none => .crash
      | some ms =>
        match parse_u32 ms with
        | none => .err
        | some month =>
          match str_slice s 6 8 with
          | none => .crash
          | some ds =>
            match parse_u32 ds with
            | none => .err
            | some day => .ok ⟨year, month, day⟩

/-! ### Field types, descriptors, errors -/

/-- `FieldType` (`src/record/field.rs:131-149`). -/
inductive FieldType where
  | Character
  | Date
  | Float
  | Numeric
  | Logical
  | Currency
  | DateTime
  | Integer
  | Double
  | Memo
deriving DecidableEq, Repr

/-- The part of `FieldInfo` the codec reads.  `FieldInfo` itself lives in
`src/record/mod.rs`, which is not under `src/`; the fields and their types
(`field_type`, `field_length: u8`, `num_decimal_places: u8`) are taken from
the test module of `src/record/field.rs:970-981` and spec section 3
("FieldDescriptor"). -/
structure FieldInfo where
  field_type : FieldType
  field_length : Nat
  num_decimal_places : Nat
deriving DecidableEq, Repr

/-- Kind of an underlying I/O error, as matched by the memo reader. -/
inductive IOErrorKind where
  | unexpectedEof
  | other
deriving DecidableEq, Repr

/-- Modelled from the spec: `ErrorKind` lives in `src/error.rs`, which is not
under `src/`.  The variants are those constructed in `src/record/field.rs`
(`IncompatibleType`, `MissingMemoFile`) together with the conversions the
`?` operator applies there: an I/O error, a `ParseFloatError` from
`str::parse::<f64>/<f32>`, and a `ParseIntError` from `str::parse::<u32>`
(spec section 7 groups the two parse variants as "numeric-parse-failure"). -/
inductive ErrorKind where
  | ioError (kind : IOErrorKind)
  | parseFloatError
  | parseIntError
  | missingMemoFile
  | incompatibleType
deriving DecidableEq, Repr

/-! ### The memo-file block reader

The source stream (`T: Read + Seek`) is modelled as a byte list addressed by
absolute position; `read_exact` fails with an `UnexpectedEof` short read when
the requested range extends past the end, having filled the destination with
the bytes that were available (the behaviour of `std::io::Cursor`). -/

/-- Read exactly `n` bytes at position `pos`, or fail with a short read. -/
def read_bytes_at (src : List Nat) (pos n : Nat) : Except IOErrorKind (List Nat) :=
  if pos + n ≤ src.length then .ok ((src.drop pos).take n) else .error .unexpectedEof

/-- `read_u32::<LittleEndian>` at an absolute position. -/
def read_u32_le (src : List Nat) (pos : Nat) : Except IOErrorKind Nat :=
  (read_bytes_at src pos 4).map from_le_bytes

/-- `read_u16::<LittleEndian>` at an absolute position. -/
def read_u16_le (src : List Nat) (pos : Nat) : Except IOErrorKind Nat :=
  (read_bytes_at src pos 2).map from_le_bytes

/-- `read_u32::<BigEndian>` at an absolute position. -/
def read_u32_be (src : List Nat) (pos : Nat) : Except IOErrorKind Nat :=
  (read_bytes_at src pos 4).map from_be_bytes

/-- `read_u16::<BigEndian>` at an absolute position. -/
def read_u16_be (src : List Nat) (pos : Nat) : Except IOErrorKind Nat :=
  (read_bytes_at src pos 2).map from_be_bytes

/-- `MemoFileType` (`src/record/field.rs:14-19`). -/
inductive MemoFileType where
  | DbaseMemo
  | DbaseMemo4
  | FoxBaseMemo
deriving DecidableEq, Repr

/-- `MemoHeader` (`src/record/field.rs:23-27`). -/
structure MemoHeader where
  next_available_block_index : Nat
  block_size : Nat
deriving DecidableEq, Repr

/-- `MemoHeader::read_from` (`src/record/field.rs:30-52`): a `u32`
next-available-block index, then a dialect-dependent block size (`0` in the
dBase dialects means 512; FoxBase skips two bytes — discarding even a read
error — and reads a big-endian `u16`). -/
def MemoHeader.read_from (src : List Nat) (memo_type : MemoFileType) :
    Except IOErrorKind MemoHeader :=
  match read_u32_le src 0 with
  | .error e => .error e
  | .ok next =>
    match memo_type with
    | .DbaseMemo | .DbaseMemo4 =>
      match read_u16_le src 4 with
      | .error e => .error e
      | .ok v => .ok ⟨next, if v = 0 then 512 else v⟩
    | .FoxBaseMemo =>
      match read_u16_be src 6 with
      | .error e => .error e
      | .ok v => .ok ⟨next, v⟩

/-- `MemoReader` (`src/record/field.rs:56-62`). -/
structure MemoReader where
  memo_file_type : MemoFileType
  header : MemoHeader
  source : List Nat
  internal_buffer : List Nat
deriving DecidableEq, Repr

/-- `MemoReader::new` (`src/record/field.rs:65-74`): parse the header and
allocate a zeroed scratch buffer of one block. -/
def MemoReader.new (memo_type : MemoFileType) (src : List Nat) :
    Except IOErrorKind MemoReader :=
  match MemoHeader.read_from src memo_type with
  | .error e => .error e
  | .ok header => .ok ⟨memo_type, header, src, List.replicate header.block_size 0⟩

/-- Outcome of `MemoReader::read_data_at`: the returned bytes together with
the updated reader (the scratch buffer is mutated in place), a propagated
I/O error, or a panic. -/
inductive MemoResult where
  | ok (data : List Nat) (reader : MemoReader)
  | ioError (kind : IOErrorKind)
  | crash
deriving DecidableEq, Repr

/-- The error-propagation test of the `DbaseMemo` arm of `read_data_at`
(`src/record/field.rs:115-119`): a failed block read is returned to the
caller exactly when the requested index is not the last allocated block
(`next_available_block_index - 1`, a wrapping `u32` subtraction) AND the
error kind is not `UnexpectedEof`. -/
def dbase_memo_propagates_read_error (index next_available_block_index : Nat)
    (kind : IOErrorKind) : Bool :=
  decide (index ≠ (next_available_block_index + 4294967295) % 4294967296) &&
  decide (kind ≠ IOErrorKind.unexpectedEof)

/-- The sentinel scan of the `DbaseMemo` arm (`src/record/field.rs:121-124`):
text ends at the first `0x1A` byte, else runs to the buffer end. -/
def dbase_memo_terminate (buffer : List Nat) : List Nat :=
  match buffer.findIdx? (fun b => b == 26) with
  | some p => buffer.take p
  | none => buffer

/-- Index of the last nonzero byte (`rposition(|b| *b != 0)`,
`src/record/field.rs:89`). -/
def rposition_nonzero (l : List Nat) : Option Nat :=
  match l.reverse.findIdx? (fun b => decide (b ≠ 0)) with
  | some j => some (l.length - 1 - j)
  | none => none

/-- `MemoReader::read_data_at` (`src/record/field.rs:76-127`).  The byte
offset `index * block_size` is a wrapping `u32` product; `seek` itself cannot
fail.  In the `DbaseMemo4` arm, slicing `internal_buffer[..length]` with
`length` beyond the buffer is a panic; in the `DbaseMemo` arm a failed
`read_exact` leaves the available bytes in the buffer and is either
propagated or ignored per `dbase_memo_propagates_read_error` (in this
byte-list model every read failure is a short read of kind `UnexpectedEof`).
-/
def MemoReader.read_data_at (r : MemoReader) (index : Nat) : MemoResult :=
  let pos := index * r.header.block_size % 4294967296
  match r.memo_file_type with
  | .FoxBaseMemo =>
    match read_u32_be r.source pos with
    | .error e => .ioError e
    | .ok _ =>
      match read_u32_be r.source (pos + 4) with
      | .error e => .ioError e
      | .ok len =>
        let buf1 := if r.internal_buffer.length < len then
            r.internal_buffer ++ List.replicate (len - r.internal_buffer.length) 0
          else r.internal_buffer
        match read_bytes_at r.source (pos + 8) len with
        | .error e => .ioError e
        | .ok content =>
          let r2 : MemoReader := { r with internal_buffer := content ++ buf1.drop len }
          match rposition_nonzero content with
          | some p => .ok (content.take (p + 1)) r2
          | none =>
            if content.all (fun b => b == 0) then .ok [] r2 else .ok content r2
  | .DbaseMemo4 =>
    match read_u32_le r.source pos with
    | .error e => .ioError e
    | .ok _ =>
      match read_u32_le r.source (pos + 4) with
      | .error e => .ioError e
      | .ok len =>
        if r.internal_buffer.length < len then .crash
        else
          match read_bytes_at r.source (pos + 8) len with
          | .error e => .ioError e
          | .ok content =>
            let buffer2 := content ++ r.internal_buffer.drop len
            let r2 : MemoReader := { r with internal_buffer := buffer2 }
            match (buffer2.take len).findIdx? (fun b => b == 31) with
            | some p => .ok (buffer2.take p) r2
            | none => .ok buffer2 r2
  | .DbaseMemo =>
    let got := (r.source.drop pos).take r.internal_buffer.length
    let buffer2 := got ++ r.internal_buffer.drop got.length
    let r2 : MemoReader := { r with internal_buffer := buffer2 }
    if pos + r.internal_buffer.length ≤ r.source.length then
      .ok (dbase_memo_terminate buffer2) r2
    else if dbase_memo_propagates_read_error index r.header.next_available_block_index
        .unexpectedEof then
      .ioError .unexpectedEof
    else .ok (dbase_memo_terminate buffer2) r2

/-- Outcome of reading one memo block through a freshly opened reader:
`MemoReader::new` followed by `read_data_at`, keeping only the returned
bytes. -/
inductive BlockRead where
  | ok (data : List Nat)
  | ioError (kind : IOErrorKind)
  | crash
deriving DecidableEq, Repr

/-- Open a memo source and read the block at `index`. -/
def memo_read_block (t : MemoFileType) (src : List Nat) (index : Nat) : BlockRead :=
  match MemoReader.new t src with
  | .error e => .ioError e
  | .ok r =>
    match r.read_data_at index with
    | .ok data _ => .ok data
    | .ioError e => .ioError e
    | .crash => .crash

/-! ### Field values and the decoder -/

/-- `FieldValue` (`src/record/field.rs:231-259`).  `Character` carries the
decoded bytes (the encoding collaborator is the identity codec here);
`Numeric`/`Float` carry the exact decimal model of `f64`/`f32`;
`Integer`/`Currency`/`Double` carry the little-endian bit pattern of the
stored `i32`/`f64`; `Memo` carries the resolved bytes. -/
inductive FieldValue where
  | Character (v : Option (List Nat))
  | Numeric (v : Option Decimal)
  | Logical (v : Option Bool)
  | Date (v : Option Date)
  | Float (v : Option Decimal)
  | Integer (v : Nat)
  | Currency (v : Nat)
  | DateTime (v : DateTime)
  | Double (v : Nat)
  | Memo (v : List Nat)
deriving DecidableEq, Repr

/-- `FieldValue::field_type` (`src/record/field.rs:363-376`). -/
def FieldValue.field_type : FieldValue → FieldType
  | .Character _ => .Character
  | .Numeric _ => .Numeric
  | .Logical _ => .Logical
  | .Integer _ => .Integer
  | .Float _ => .Float
  | .Double _ => .Double
  | .Date _ => .Date
  | .Memo _ => .Memo
  | .Currency _ => .Currency
  | .DateTime _ => .DateTime

/-- Outcome of decoding one field: a value, an `ErrorKind`, or a panic. -/
inductive DecodeResult where
  | ok (v : FieldValue)
  | err (e : ErrorKind)
  | crash
deriving DecidableEq, Repr

/-- `DateTime::read_from` (`src/record/field.rs:614-620`): two little-endian
32-bit words, a Julian day number and a time word.  A source shorter than 8
bytes is a propagated I/O error.  The stored words are interpreted as
nonnegative (`i32` bit patterns at or above `2 ^ 31` — negative day numbers
or time words — are outside the range the claims quantify over). -/
def DateTime.read_from (src : List Nat) : Except ErrorKind DateTime :=
  if src.length < 8 then .error (.ioError .unexpectedEof)
  else
    .ok ⟨Date.julian_day_number_to_gregorian_date (from_le_bytes (src.take 4)),
         Time.from_word (from_le_bytes ((src.drop 4).take 4))⟩

/-- The memo lookup at the end of the `Memo` arm of `read_from`
(`src/record/field.rs:351-356`): without an open memo reader the decode
fails with `MissingMemoFile`; a reader error is wrapped as an I/O error. -/
def memo_lookup (memo_reader : Option MemoReader) (index_in_memo : Nat) : DecodeResult :=
  match memo_reader with
  | some r =>
    match r.read_data_at index_in_memo with
    | .ok data _ => .ok (.Memo data)
    | .ioError e => .err (.ioError e)
    | .crash => .crash
  | none => .err .missingMemoFile

/-- `FieldValue::read_from` (`src/record/field.rs:262-360`): decode one
fixed-width field slot.  `field_bytes[0]` on an empty slot and
`field_bytes[..4]` on a short slot are panics; the `debug_assert_eq!` on the
slot length is a debug-build check and is not modelled. -/
def FieldValue.read_from (field_bytes : List Nat) (memo_reader : Option MemoReader)
    (field_info : FieldInfo) : DecodeResult :=
  match field_info.field_type with
  | .Logical =>
    match field_bytes with
    | [] => .crash
    | b :: _ =>
      match b with
      | 32 | 63 => .ok (.Logical none)
      | 49 | 48 | 84 | 116 | 89 | 121 => .ok (.Logical (some true))
      | 78 | 110 | 70 | 102 => .ok (.Logical (some false))
      | _ => .ok (.Logical none)
  | .Character =>
    let value := trim_field_data field_bytes
    if value.isEmpty then .ok (.Character none)
    else .ok (.Character (some value))
  | .Numeric =>
    let value := trim_field_data field_bytes
    if value.isEmpty || value.all (fun c => c == 42) then .ok (.Numeric none)
    else
      match parse_f64 value with
      | some v => .ok (.Numeric (some v))
      | none => .err .parseFloatError
  | .Float =>
    let value := trim_field_data field_bytes
    if value.isEmpty || value.all (fun c => c == 42) then .ok (.Float none)
    else
      match parse_f64 value with
      | some v => .ok (.Float (some v))
      | none => .err .parseFloatError
  | .Date =>
    let value := trim_field_data field_bytes
    if value.all (fun c => c == 32) then .ok (.Date none)
    else
      match Date.from_str value with
      | .ok d => .ok (.Date (some d))
      | .err => .err .parseIntError
      | .crash => .crash
  | .Integer =>
    if field_bytes.length < 4 then .crash
    else .ok (.Integer (from_le_bytes (field_bytes.take 4)))
  | .Double =>
    if field_bytes.length < 8 then .crash
    else .ok (.Double (from_le_bytes (field_bytes.take 8)))
  | .Currency =>
    if field_bytes.length < 8 then .crash
    else .ok (.Currency (from_le_bytes (field_bytes.take 8)))
  | .DateTime =>
    match DateTime.read_from field_bytes with
    | .ok dt => .ok (.DateTime dt)
    | .error e => .err e
  | .Memo =>
    if 4 < field_info.field_length then
      let trimmed_value := trim_field_data field_bytes
      if trimmed_value.isEmpty then .ok (.Memo [])
      else
        match parse_u32 trimmed_value with
        | none => .err .parseIntError
        | some index_in_memo => memo_lookup memo_reader index_in_memo
    else
      if field_bytes.length < 4 then .crash
      else memo_lookup memo_reader (from_le_bytes (field_bytes.take 4))

/-! ### The encoder

Each `impl WritableAsDbaseField for T` of `src/record/field.rs:629-825`
becomes one function taking the bytes already in the destination and
returning the extended destination; every error in this code is raised
before any byte is written, so the error outcome carries the destination
unchanged. -/

/-- Outcome of encoding: the destination after the write, an error with the
destination unchanged, or a panic. -/
inductive WriteResult where
  | ok (dst : List Nat)
  | err (e : ErrorKind) (dst : List Nat)
  | crash
deriving DecidableEq, Repr

/-- `impl WritableAsDbaseField for String` (`src/record/field.rs:742-751`). -/
def string_write_as (s : List Nat) (field_info : FieldInfo) (dst : List Nat) : WriteResult :=
  if field_info.field_type = .Character then .ok (dst ++ s)
  else .err .incompatibleType dst

/-- `impl WritableAsDbaseField for Option<String>`
(`src/record/field.rs:753-764`). -/
def option_string_write_as (v : Option (List Nat)) (field_info : FieldInfo)
    (dst : List Nat) : WriteResult :=
  if field_info.field_type = .Character then
    match v with
    | some s => string_write_as s field_info dst
    | none => .ok dst
  else .err .incompatibleType dst

/-- The `Numeric` arm of `impl WritableAsDbaseField for f64`
(`src/record/field.rs:650-669`): format with exactly `num_decimal_places`
fractional digits.  The `Currency | Double` arm of that impl writes the
`f64`'s little-endian bytes and is embedded at its call sites
(`FieldValue.write_as`) on the bit-pattern payload; it is not reachable
through this `Decimal`-typed function, whose remaining arm is the
incompatible-type error. -/
def f64_write_as_numeric (value : Decimal) (field_info : FieldInfo)
    (dst : List Nat) : WriteResult :=
  if field_info.field_type = .Numeric then
    .ok (dst ++ format_fixed value field_info.num_decimal_places)
  else .err .incompatibleType dst

/-- `impl WritableAsDbaseField for Option<f64>`
(`src/record/field.rs:699-711`). -/
def option_f64_write_as (v : Option Decimal) (field_info : FieldInfo)
    (dst : List Nat) : WriteResult :=
  if field_info.field_type = .Numeric then
    match v with
    | some value => f64_write_as_numeric value field_info dst
    | none => .ok dst
  else .err .incompatibleType dst

/-- `impl WritableAsDbaseField for f32` (`src/record/field.rs:713-727`). -/
def f32_write_as (value : Decimal) (field_info : FieldInfo) (dst : List Nat) : WriteResult :=
  if field_info.field_type = .Float then
    .ok (dst ++ format_fixed value field_info.num_decimal_places)
  else .err .incompatibleType dst

/-- `impl WritableAsDbaseField for Option<f32>`
(`src/record/field.rs:729-740`). -/
def option_f32_write_as (v : Option Decimal) (field_info : FieldInfo)
    (dst : List Nat) : WriteResult :=
  if field_info.field_type = .Float then
    match v with
    | some value => f32_write_as value field_info dst
    | none => .ok dst
  else .err .incompatibleType dst

/-- `impl WritableAsDbaseField for bool` (`src/record/field.rs:777-790`):
`true`/`false` write exactly the single byte `t` (116) / `f` (102). -/
def bool_write_as (b : Bool) (field_info : FieldInfo) (dst : List Nat) : WriteResult :=
  if field_info.field_type = .Logical then
    .ok (dst ++ [if b then 116 else 102])
  else .err .incompatibleType dst

/-- `impl WritableAsDbaseField for Option<bool>`
(`src/record/field.rs:792-803`). -/
def option_bool_write_as (v : Option Bool) (field_info : FieldInfo)
    (dst : List Nat) : WriteResult :=
  if field_info.field_type = .Logical then
    match v with
    | some b => bool_write_as b field_info dst
    | none => .ok dst
  else .err .incompatibleType dst

/-- `impl WritableAsDbaseField for Date` (`src/record/field.rs:671-680`):
`{:04}{:02}{:02}` of year, month, day. -/
def date_write_as (d : Date) (field_info : FieldInfo) (dst : List Nat) : WriteResult :=
  if field_info.field_type = .Date then
    .ok (dst ++ zero_pad 4 (nat_decimal_bytes d.year) ++
      zero_pad 2 (nat_decimal_bytes d.month) ++ zero_pad 2 (nat_decimal_bytes d.day))
  else .err .incompatibleType dst

/-- `impl WritableAsDbaseField for Option<Date>`
(`src/record/field.rs:682-697`): an absent date writes eight spaces. -/
def option_date_write_as (v : Option Date) (field_info : FieldInfo)
    (dst : List Nat) : WriteResult :=
  if field_info.field_type = .Date then
    match v with
    | some d => date_write_as d field_info dst
    | none => .ok (dst ++ List.replicate 8 32)
  else .err .incompatibleType dst

/-- `impl WritableAsDbaseField for i32` (`src/record/field.rs:805-814`). -/
def i32_write_as (bits : Nat) (field_info : FieldInfo) (dst : List Nat) : WriteResult :=
  if field_info.field_type = .Integer then .ok (dst ++ to_le_bytes_4 bits)
  else .err .incompatibleType dst

/-- `DateTime::write_to` (`src/record/field.rs:622-626`): Julian day number
then time word, each as a little-endian 32-bit value. -/
def DateTime.write_to (dt : DateTime) (dst : List Nat) : List Nat :=
  dst ++ to_le_bytes_4 dt.date.to_julian_day_number ++ to_le_bytes_4 dt.time.to_time_word

/-- `impl WritableAsDbaseField for DateTime` (`src/record/field.rs:816-825`). -/
def datetime_write_as (dt : DateTime) (field_info : FieldInfo) (dst : List Nat) : WriteResult :=
  if field_info.field_type = .DateTime then .ok (DateTime.write_to dt dst)
  else .err .incompatibleType dst

/-- `impl WritableAsDbaseField for FieldValue` (`src/record/field.rs:629-648`):
first the schema check — a value whose own tag differs from the target
descriptor's tag is an incompatible-type error before anything is written —
then dispatch to the per-type impl.  `Currency`/`Double` delegate to the
`Currency | Double` arm of the `f64` impl (lines 662-665), embedded here on
the bit-pattern payload; writing a `Memo` value is `unimplemented!`, a
panic. -/
def FieldValue.write_as (v : FieldValue) (field_info : FieldInfo)
    (dst : List Nat) : WriteResult :=
  if v.field_type ≠ field_info.field_type then .err .incompatibleType dst
  else
    match v with
    | .Character value => option_string_write_as value field_info dst
    | .Numeric value => option_f64_write_as value field_info dst
    | .Logical value => option_bool_write_as value field_info dst
    | .Date value => option_date_write_as value field_info dst
    | .Float value => option_f32_write_as value field_info dst
    | .Integer value => i32_write_as value field_info dst
    | .Currency value => .ok (dst ++ to_le_bytes_8 value)
    | .DateTime value => datetime_write_as value field_info dst
    | .Double value => .ok (dst ++ to_le_bytes_8 value)
    | .Memo _ => .crash

/-- Modelled from the spec: the Table Writer lives in `src/writing.rs`, which
is not under `src/`.  Spec sections 4.2 and 4.5: each value is serialized
into its fixed-width slot, and "absent" variants "write either nothing (left
as pre-filled padding)"; the pad byte is the space character (spec
glossary).  A field slot is therefore the bytes produced by `write_as`,
padded with spaces to the declared field length. -/
def encode_field_slot (v : FieldValue) (field_info : FieldInfo) : WriteResult :=
  match v.write_as field_info [] with
  | .ok bytes => .ok (bytes ++ List.replicate (field_info.field_length - bytes.length) 32)
  | r => r

/-- Whether encoding `v` into a slot described by `field_info` and decoding
that slot back (with no memo stream) yields `v` again. -/
def round_trips (v : FieldValue) (field_info : FieldInfo) : Bool :=
  match encode_field_slot v field_info with
  | .ok bytes =>
    match FieldValue.read_from bytes none field_info with
    | .ok v2 => decide (v2 = v)
    | _ => false
  | _ => false

/-! ### Representative values for the round-trip claim

One or more representatives per supported type tag, each paired with a
matching descriptor: the "absent" variant for Character / Numeric / Float /
Date / Logical, and a Date with single-digit day and month (padded to two
digits on encode). -/

/-- Representative (value, matching descriptor) pairs, one group per
supported type tag.  `Currency`/`Double` carry the bit patterns of the
`f64` values 32.0 and 1.0. -/
def representatives : List (FieldValue × FieldInfo) :=
  [(.Character (some [79, 110, 108, 121, 32, 65, 83, 67, 73, 73]), ⟨.Character, 10, 0⟩),
   (.Character none, ⟨.Character, 10, 0⟩),
   (.Numeric (some (Decimal.ofScaled 32 0)), ⟨.Numeric, 20, 0⟩),
   (.Numeric (some (Decimal.ofScaled 325 1)), ⟨.Numeric, 20, 1⟩),
   (.Numeric none, ⟨.Numeric, 20, 0⟩),
   (.Float (some (Decimal.ofScaled 32 0)), ⟨.Float, 20, 0⟩),
   (.Float none, ⟨.Float, 20, 0⟩),
   (.Logical (some true), ⟨.Logical, 1, 0⟩),
   (.Logical (some false), ⟨.Logical, 1, 0⟩),
   (.Logical none, ⟨.Logical, 1, 0⟩),
   (.Date (some ⟨2019, 7, 20⟩), ⟨.Date, 8, 0⟩),
   (.Date (some ⟨2019, 1, 1⟩), ⟨.Date, 8, 0⟩),
   (.Date none, ⟨.Date, 8, 0⟩),
   (.Integer 1457, ⟨.Integer, 4, 0⟩),
   (.Currency 4629700416936869888, ⟨.Currency, 8, 0⟩),
   (.DateTime ⟨⟨2019, 7, 20⟩, ⟨12, 30, 45⟩⟩, ⟨.DateTime, 8, 0⟩),
   (.Double 4607182418800017408, ⟨.Double, 8, 0⟩),
   (.Memo [], ⟨.Memo, 10, 0⟩)]

/-- The representatives of the nine tags whose values the codec can encode
(every tag except `Memo`, whose encoder is `unimplemented!`). -/
def encodable_representatives : List (FieldValue × FieldInfo) :=
  representatives.filter (fun p => decide (p.1.field_type ≠ .Memo))

/-! ### Claim-side definitions: calendar validity and the trim
characterization -/

/-- Gregorian leap-year rule (claim side, for C2's "day valid for that
month"). -/
def is_gregorian_leap_year (y : Nat) : Bool :=
  y % 4 == 0 && (y % 100 != 0 || y % 400 == 0)

/-- Number of days of `month` in `year` (claim side). -/
def days_in_month (year month : Nat) : Nat :=
  if month = 2 then (if is_gregorian_leap_year year then 29 else 28)
  else if month = 4 ∨ month = 6 ∨ month = 9 ∨ month = 11 then 30
  else 31

/-- A byte list with its trailing pad bytes (0x20) removed (claim side). -/
def strip_trailing_spaces (l : List Nat) : List Nat :=
  (l.reverse.dropWhile (fun b => b == 32)).reverse

/-- The trimmed slice as claim C8 describes it: of the bytes before the
first `0x00`, the span from the first byte that is not `0x20` through the
last such byte — equivalently, that prefix with its leading and trailing
spaces removed (claim side). -/
def trim_spec (bytes : List Nat) : List Nat :=
  strip_trailing_spaces
    ((bytes.takeWhile (fun b => decide (b ≠ 0))).dropWhile (fun b => b == 32))

/-! Scan characterizations used to prove the trim claim: whether a
qualifying byte (neither `0x00`-stopped nor `0x20`) exists, and the indices
of the first and last qualifying bytes. -/

/-- Whether the scan of `trim_loop` meets a qualifying byte. -/
def hasq : List Nat → Bool
  | [] => false
  | b :: rest => if b = 0 then false else if b = 32 then hasq rest else true

/-- Index of the first qualifying byte, if any. -/
def firstq : List Nat → Option Nat
  | [] => none
  | b :: rest => if b = 0 then none else if b = 32 then (firstq rest).map (· + 1) else some 0

/-- Index of the last qualifying byte (meaningful when `hasq` holds). -/
def lastq : List Nat → Nat
  | [] => 0
  | b :: rest => if b = 0 then 0 else if hasq rest then lastq rest + 1 else 0

/-- A dBase-IV memo stream: header (next block 1, block size 8), two filler
bytes, then the block at index 1: a 4-byte tag, the little-endian length 2,
and the two content bytes `A B` with no `0x1F` terminator. -/
def c5_source : List Nat :=
  [1, 0, 0, 0, 8, 0] ++ [0, 0] ++ [0, 0, 0, 0] ++ [2, 0, 0, 0] ++ [65, 66]

/-- A dBase-memo stream that is only a 6-byte header (next available block
3, block size 4): reading any block past the header runs off the end of the
stream. -/
def c6_source : List Nat := [3, 0, 0, 0, 4, 0]

/-! ## Claim C1: decode-encode round trip on representative values -/

/-- C1, counterexample: `Memo` is a supported type tag and `Memo []` (paired
with a matching descriptor) is among the representatives, but encoding any
`Memo` value is `unimplemented!` (a panic), so decoding the encoded bytes
cannot yield the value back — the round trip fails for the `Memo` tag. -/
theorem c1_memo_counterexample :
    (FieldValue.Memo [], (⟨.Memo, 10, 0⟩ : FieldInfo)) ∈ representatives ∧
    round_trips (.Memo []) ⟨.Memo, 10, 0⟩ = false ∧
    FieldValue.write_as (.Memo []) ⟨.Memo, 10, 0⟩ [] = .crash := by
  refine ⟨by decide, by decide, by decide⟩

/-- C1 (amended): for every representative value of the nine encodable type
tags — all tags except `Memo`, including the "absent" variant for
Character/Numeric/Float/Date/Logical and Date values with single-digit day
and month — decoding the slot produced by encoding the value against its
matching descriptor yields the value back. -/
theorem c1_round_trip_representatives :
    encodable_representatives.all (fun p => round_trips p.1 p.2) = true := by
  decide

/-! ## Claim C3: the Logical byte mapping -/

/-- C3, counterexample: the byte `0` (0x30) is not among `T,t,Y,y,1`, so the
claim maps it to the absent variant, but the decoder maps it to
present-true (`'1' | '0' | 'T' | ... => Some(true)`,
`src/record/field.rs:272`). -/
theorem c3_zero_decodes_true :
    FieldValue.read_from [48] none ⟨.Logical, 1, 0⟩ = .ok (.Logical (some true)) := by
  decide

/-- C3 (amended): decoding a 1-byte Logical field maps each of `T,t,Y,y,1`
AND `0` to present-true; each of `F,f,N,n` to present-false; and space, `?`
and every other byte to the absent variant.  Encoding present-true always
writes exactly the single byte `t`, and present-false exactly `f`. -/
theorem c3_logical_mapping :
    (∀ b : Nat, b < 256 →
      FieldValue.read_from [b] none ⟨.Logical, 1, 0⟩ =
        .ok (.Logical
          (if b = 84 ∨ b = 116 ∨ b = 89 ∨ b = 121 ∨ b = 49 ∨ b = 48 then some true
           else if b = 78 ∨ b = 110 ∨ b = 70 ∨ b = 102 then some false
           else none))) ∧
    FieldValue.write_as (.Logical (some true)) ⟨.Logical, 1, 0⟩ [] = .ok [116] ∧
    FieldValue.write_as (.Logical (some false)) ⟨.Logical, 1, 0⟩ [] = .ok [102] := by
  refine ⟨?_, by decide, by decide⟩
  intro b hb
  interval_cases b <;> decide

/-- C3 witness: the amended mapping evaluated at the byte `Y` (89). -/
theorem c3_logical_mapping_witness :
    FieldValue.read_from [89] none ⟨.Logical, 1, 0⟩ = .ok (.Logical (some true)) := by
  have h := c3_logical_mapping.1 89 (by decide)
  simpa using h

/-! ## Claim C4: schema enforcement on write -/

/-- C4: encoding any `FieldValue` against a descriptor whose type tag
differs from the value's own tag fails with the incompatible-type error
before any byte is written — the destination is returned unchanged. -/
theorem c4_incompatible_type_write (v : FieldValue) (field_info : FieldInfo)
    (dst : List Nat) (h : v.field_type ≠ field_info.field_type) :
    v.write_as field_info dst = .err .incompatibleType dst := by
  unfold FieldValue.write_as
  rw [if_pos h]

/-- C4 witness: a Logical value written against a Character descriptor. -/
theorem c4_incompatible_type_write_witness :
    FieldValue.field_type (.Logical (some true)) ≠ FieldType.Character ∧
    FieldValue.write_as (.Logical (some true)) ⟨.Character, 10, 0⟩ [65] =
      .err .incompatibleType [65] :=
  ⟨by decide, c4_incompatible_type_write (.Logical (some true)) ⟨.Character, 10, 0⟩ [65]
    (by decide)⟩

/-! ## Claim C9: Memo decode without a memo stream -/

/-- C9, counterexample: a Memo field of length > 4 whose slot is all spaces
decodes to `Memo("")` without consulting the (absent) memo stream
(`src/record/field.rs:339-340`), so decoding with no open memo stream does
NOT fail with missing-memo-file for every slot content. -/
theorem c9_counterexample :
    FieldValue.read_from [32, 32, 32, 32, 32, 32, 32, 32] none ⟨.Memo, 8, 0⟩ =
      .ok (.Memo []) := by
  decide

/-- C9 (amended): with no memo stream open, decoding a Memo field fails with
the distinct missing-memo-file error whenever the slot yields a block index
(length > 4: nonempty trimmed content that parses as `u32`; length ≤ 4: any
four stored bytes); an all-space slot of length > 4 instead decodes to an
empty `Memo` without error, and unparseable content fails with the
numeric-parse error. -/
theorem c9_memo_missing_stream (field_bytes : List Nat) (field_info : FieldInfo)
    (ht : field_info.field_type = .Memo) :
    (4 < field_info.field_length →
      (trim_field_data field_bytes = [] →
        FieldValue.read_from field_bytes none field_info = .ok (.Memo [])) ∧
      (∀ idx, parse_u32 (trim_field_data field_bytes) = some idx →
        FieldValue.read_from field_bytes none field_info = .err .missingMemoFile) ∧
      (trim_field_data field_bytes ≠ [] →
        parse_u32 (trim_field_data field_bytes) = none →
        FieldValue.read_from field_bytes none field_info = .err .parseIntError)) ∧
    (field_info.field_length ≤ 4 → 4 ≤ field_bytes.length →
      FieldValue.read_from field_bytes none field_info = .err .missingMemoFile) := by
  simp only [FieldValue.read_from, ht]
  constructor
  · intro h4
    rw [if_pos h4]
    refine ⟨?_, ?_, ?_⟩
    · intro hempty
      rw [if_pos (by simpa [List.isEmpty_iff] using hempty)]
    · intro idx hparse
      have hne : ¬ (trim_field_data field_bytes).isEmpty = true := by
        intro hcon
        rw [List.isEmpty_iff] at hcon
        rw [hcon] at hparse
        simp [parse_u32] at hparse
      rw [if_neg hne, hparse]
      rfl
    · intro hne hparse
      rw [if_neg (by simpa [List.isEmpty_iff] using hne), hparse]
  · intro hle hlen
    rw [if_neg (by omega), if_neg (by omega)]
    rfl

/-- C9 witness: a length-5 Memo slot holding the digits `12` fails with
missing-memo-file when no memo stream is open. -/
theorem c9_memo_missing_stream_witness :
    FieldValue.read_from [49, 50, 32, 32, 32] none ⟨.Memo, 5, 0⟩ =
      .err .missingMemoFile :=
  ((c9_memo_missing_stream [49, 50, 32, 32, 32] ⟨.Memo, 5, 0⟩ rfl).1
    (by decide)).2.1 12 (by decide)

/-! ## Claim C10: `Date::from_str` is not total -/

/-- C10, counterexample: the input `abcd` is shorter than 8 characters with
nonempty trimmed form, yet `from_str` returns a parse error rather than
panicking — `s[0..4]` is in range and its `u32` parse fails (the `?`
returns) before the out-of-range `s[4..6]` is evaluated. -/
theorem c10_counterexample :
    Date.from_str [97, 98, 99, 100] = .err ∧
    ([97, 98, 99, 100] : List Nat).length < 8 ∧
    trim_field_data [97, 98, 99, 100] ≠ [] := by
  refine ⟨by decide, by decide, by decide⟩

/-- C10 (amended): `Date::from_str` is not total on inputs shorter than 8
characters: it never returns `Ok` — it panics on the first out-of-range
byte slice unless an earlier `u32` parse already failed, in which case that
parse error is returned.  In particular every input shorter than 4
characters panics, the digit input `2019` panics at `s[4..6]`, and the Date
decode branch panics on a field containing `2019` followed by spaces. -/
theorem c10_date_from_str_not_total (s : List Nat) (h8 : s.length < 8) :
    (Date.from_str s = .crash ∨ Date.from_str s = .err) ∧
    (s.length < 4 → Date.from_str s = .crash) ∧
    Date.from_str [50, 48, 49, 57] = .crash ∧
    FieldValue.read_from [50, 48, 49, 57, 32, 32, 32, 32] none ⟨.Date, 8, 0⟩ =
      .crash := by
  refine ⟨?_, ?_, by decide, by decide⟩
  · unfold Date.from_str
    rcases h04 : str_slice s 0 4 with _ | ys
    · simp only [h04]
      left; trivial
    · simp only [h04]
      rcases hp1 : parse_u32 ys with _ | year
      · simp only [hp1]
        right; trivial
      · simp only [hp1]
        rcases h46 : str_slice s 4 6 with _ | ms
        · simp only [h46]
          left; trivial
        · simp only [h46]
          rcases hp2 : parse_u32 ms with _ | month
          · simp only [hp2]
            right; trivial
          · simp only [hp2]
            have h68 : str_slice s 6 8 = none := by
              unfold str_slice
              rw [if_neg (by omega)]
            simp only [h68]
            left; trivial
  · intro h4
    have h04 : str_slice s 0 4 = none := by
      unfold str_slice
      rw [if_neg (by omega)]
    unfold Date.from_str
    simp only [h04]

/-- C10 witness: the two-byte input `20` panics. -/
theorem c10_date_from_str_not_total_witness :
    Date.from_str [50, 48] = .crash :=
  (c10_date_from_str_not_total [50, 48] (by decide)).2.1 (by decide)

/-! ## Claim C5: the dBase-memo-IV block reader -/

/-- C5, counterexample: the block at index 1 of `c5_source` declares length
2 and holds `A B` with no `0x1F`, but the reader returns the whole 8-byte
scratch buffer (`Ok(&self.internal_buffer)`, `src/record/field.rs:110`) —
the two content bytes followed by six stale zero bytes — not exactly the 2
declared bytes. -/
theorem c5_counterexample :
    memo_read_block .DbaseMemo4 c5_source 1 = .ok [65, 66, 0, 0, 0, 0, 0, 0] ∧
    read_u32_le c5_source 12 = .ok 2 ∧
    read_bytes_at c5_source 16 2 = .ok [65, 66] ∧
    ¬ memo_read_block .DbaseMemo4 c5_source 1 = .ok [65, 66] := by
  refine ⟨by decide, by rfl, by rfl, by decide⟩

/-! ## Claim C6: the dBase-memo truncated-block tolerance -/

/-- C6, counterexample: reading block 1 of `c6_source` fails (the 4-byte
block starting at offset 4 runs past the 6-byte stream), and 1 is NOT the
last allocated block (`next_available_block_index - 1 = 2`), yet the lookup
succeeds on the partially filled buffer, because the short read's kind is
`UnexpectedEof` and the code propagates only when the index differs from
the last block AND the kind is not `UnexpectedEof`. -/
theorem c6_counterexample :
    memo_read_block .DbaseMemo c6_source 1 = .ok [4, 0, 0, 0] ∧
    (1 : Nat) ≠ (3 + 4294967295) % 4294967296 ∧
    read_bytes_at c6_source 4 4 = .error .unexpectedEof := by
  refine ⟨by decide, by decide, by rfl⟩

/-- C6 (amended): a failed block read in the dBase-memo dialect is
propagated exactly when the requested index differs from the last allocated
block AND the error kind is not `UnexpectedEof`; it is tolerated at the
last allocated block OR whenever the failure is a short read.  In the
byte-stream model every read failure is a short read (`UnexpectedEof`), so
the dBase-memo arm never propagates an error (and never panics). -/
theorem c6_dbase_memo_tolerance (index next : Nat) (kind : IOErrorKind) :
    (dbase_memo_propagates_read_error index next kind = true ↔
      index ≠ (next + 4294967295) % 4294967296 ∧ kind ≠ .unexpectedEof) ∧
    (∀ r : MemoReader, r.memo_file_type = .DbaseMemo →
      r.read_data_at index ≠ .ioError kind ∧ r.read_data_at index ≠ .crash) := by
  constructor
  · simp [dbase_memo_propagates_read_error]
  · intro r hty
    simp only [MemoReader.read_data_at, hty]
    have hfalse : dbase_memo_propagates_read_error index
        r.header.next_available_block_index .unexpectedEof = false := by
      simp [dbase_memo_propagates_read_error]
    simp only [hfalse]
    split_ifs <;> simp_all

/-- C6 witness: the tolerance theorem applied to a concrete truncated
reader at the non-last block index 1. -/
theorem c6_dbase_memo_tolerance_witness :
    MemoReader.read_data_at ⟨.DbaseMemo, ⟨3, 4⟩, c6_source, [0, 0, 0, 0]⟩ 1 ≠
      .ioError .unexpectedEof :=
  ((c6_dbase_memo_tolerance 1 3 .unexpectedEof).2
    ⟨.DbaseMemo, ⟨3, 4⟩, c6_source, [0, 0, 0, 0]⟩ rfl).1

/-! Helper lemmas about `read_bytes_at` and `findIdx?`. -/

theorem read_bytes_at_ok {src : List Nat} {pos n : Nat} {c : List Nat}
    (h : read_bytes_at src pos n = .ok c) :
    pos + n ≤ src.length ∧ c = (src.drop pos).take n ∧ c.length = n := by
  unfold read_bytes_at at h
  split_ifs at h with hle
  · cases h
    refine ⟨hle, rfl, ?_⟩
    rw [List.length_take, List.length_drop]
    omega

theorem takeWhile_eq_self_of_findIdx?_none {p : Nat → Bool} {l : List Nat}
    (h : l.findIdx? p = none) : l.takeWhile (fun a => ! p a) = l := by
  induction l with
  | nil => rfl
  | cons x xs ih =>
    rw [List.findIdx?_cons] at h
    by_cases hx : p x
    · rw [if_pos hx] at h
      cases h
    · rw [if_neg hx] at h
      rw [List.findIdx?_succ] at h
      have hxs := ih (by simpa using h)
      simp [List.takeWhile_cons, hx, hxs]

theorem take_eq_takeWhile_of_findIdx?_some {p : Nat → Bool} :
    ∀ {l : List Nat} {i : Nat}, l.findIdx? p = some i →
      l.take i = l.takeWhile (fun a => ! p a) := by
  intro l
  induction l with
  | nil => intro i h; cases h
  | cons x xs ih =>
    intro i h
    rw [List.findIdx?_cons] at h
    by_cases hx : p x
    · rw [if_pos hx] at h
      cases h
      simp [List.takeWhile_cons, hx]
    · rw [if_neg hx] at h
      rw [List.findIdx?_succ] at h
      rcases hj : xs.findIdx? p with _ | j
      · rw [hj] at h
        cases h
      · rw [hj] at h
        rw [Option.map_some'] at h
        cases h
        rw [List.take_succ_cons, List.takeWhile_cons]
        have hxs := ih hj
        simp [hx, hxs]

theorem any_eq_isSome_findIdx? {p : Nat → Bool} {l : List Nat} :
    l.any p = (l.findIdx? p).isSome := by
  induction l with
  | nil => rfl
  | cons x xs ih =>
    rw [List.any_cons, List.findIdx?_cons]
    by_cases hx : p x
    · simp [hx]
    · simp [hx, List.findIdx?_succ, ih]

/-! ## Claim C5 (continued): the general dBase-memo-IV block theorem -/

/-- C5 (amended): for a dBase-memo-IV block whose 4-byte little-endian
length prefix declares length `L` (with `L` within the scratch buffer, else
the slice panics), the reader reads exactly the `L` content bytes; it
returns the bytes strictly before the first `0x1F` among those `L` bytes if
one exists, and otherwise returns the ENTIRE scratch buffer — the `L`
content bytes followed by the buffer's stale tail — not exactly the `L`
bytes. -/
theorem c5_dbase4_block (r : MemoReader) (index L : Nat) (content : List Nat)
    (hty : r.memo_file_type = .DbaseMemo4)
    (hL : read_u32_le r.source (index * r.header.block_size % 4294967296 + 4) = .ok L)
    (hc : read_bytes_at r.source (index * r.header.block_size % 4294967296 + 8) L =
      .ok content)
    (hbuf : L ≤ r.internal_buffer.length) :
    r.read_data_at index =
      .ok (if content.any (fun b => b == 31) then
             content.takeWhile (fun b => ! (b == 31))
           else content ++ r.internal_buffer.drop L)
        { r with internal_buffer := content ++ r.internal_buffer.drop L } := by
  obtain ⟨hcb, hcv, hclen⟩ := read_bytes_at_ok hc
  have htag : read_u32_le r.source (index * r.header.block_size % 4294967296) =
      .ok (from_le_bytes ((r.source.drop (index * r.header.block_size % 4294967296)).take 4)) := by
    unfold read_u32_le read_bytes_at
    rw [if_pos (by omega)]
    rfl
  simp only [MemoReader.read_data_at, hty, htag, hL, hc]
  rw [if_neg (by omega)]
  have htake : (content ++ r.internal_buffer.drop L).take L = content := by
    rw [List.take_append_eq_append_take, List.take_of_length_le (by omega),
      show L - content.length = 0 by omega, List.take_zero, List.append_nil]
  rcases hf : (content ++ r.internal_buffer.drop L).take L |>.findIdx? (fun b => b == 31)
      with _ | p
  · simp only [hf]
    rw [htake] at hf
    have hany : content.any (fun b => b == 31) = false := by
      rw [any_eq_isSome_findIdx?, hf]
      rfl
    rw [hany]
    simp
  · simp only [hf]
    rw [htake] at hf
    have hany : content.any (fun b => b == 31) = true := by
      rw [any_eq_isSome_findIdx?, hf]
      rfl
    rw [hany]
    have hplt : p < L := by
      rcases List.findIdx?_eq_some_iff_findIdx_eq.mp hf with ⟨hlt, _⟩
      omega
    have : (content ++ r.internal_buffer.drop L).take p = content.take p := by
      rw [List.take_append_eq_append_take,
        show p - content.length = 0 by omega, List.take_zero, List.append_nil]
    rw [this, take_eq_takeWhile_of_findIdx?_some hf]
    simp

/-- C5 witness: the general block theorem applied to the concrete reader
over `c5_source` (declared length 2, content `A B`, no `0x1F`): the result
is the whole 8-byte buffer. -/
theorem c5_dbase4_block_witness :
    MemoReader.read_data_at ⟨.DbaseMemo4, ⟨1, 8⟩, c5_source, List.replicate 8 0⟩ 1 =
      .ok [65, 66, 0, 0, 0, 0, 0, 0]
        ⟨.DbaseMemo4, ⟨1, 8⟩, c5_source, [65, 66, 0, 0, 0, 0, 0, 0]⟩ := by
  have h := c5_dbase4_block ⟨.DbaseMemo4, ⟨1, 8⟩, c5_source, List.replicate 8 0⟩ 1 2
    [65, 66] rfl (by rfl) (by rfl) (by decide)
  simpa using h

/-! ## Claim C7: Numeric/Float sentinel handling -/

/-- C7: decoding a Numeric or Float field whose trimmed slice is empty, or
consists entirely of `*` (42) bytes, yields the absent variant; any other
trimmed slice is parsed as a decimal number, and a parse failure is
propagated as an error — never silently mapped to the absent variant. -/
theorem c7_numeric_sentinels (field_bytes : List Nat) (info : FieldInfo)
    (hty : info.field_type = .Numeric ∨ info.field_type = .Float) :
    ((trim_field_data field_bytes = [] ∨ ∀ b ∈ trim_field_data field_bytes, b = 42) →
      FieldValue.read_from field_bytes none info =
        .ok (if info.field_type = .Numeric then .Numeric none else .Float none)) ∧
    (¬ (trim_field_data field_bytes = [] ∨ ∀ b ∈ trim_field_data field_bytes, b = 42) →
      parse_f64 (trim_field_data field_bytes) = none →
      FieldValue.read_from field_bytes none info = .err .parseFloatError) ∧
    (∀ v, ¬ (trim_field_data field_bytes = [] ∨ ∀ b ∈ trim_field_data field_bytes, b = 42) →
      parse_f64 (trim_field_data field_bytes) = some v →
      FieldValue.read_from field_bytes none info =
        .ok (if info.field_type = .Numeric then .Numeric (some v) else .Float (some v))) := by
  have hcondt : (trim_field_data field_bytes = [] ∨ ∀ b ∈ trim_field_data field_bytes, b = 42) →
      ((trim_field_data field_bytes).isEmpty ||
        (trim_field_data field_bytes).all (fun c => c == 42)) = true := by
    intro hs
    rcases hs with hs | hs
    · simp [hs]
    · simp only [Bool.or_eq_true, List.all_eq_true, beq_iff_eq]
      exact Or.inr hs
  have hcondf : ¬ (trim_field_data field_bytes = [] ∨ ∀ b ∈ trim_field_data field_bytes, b = 42) →
      ¬ ((trim_field_data field_bytes).isEmpty ||
        (trim_field_data field_bytes).all (fun c => c == 42)) = true := by
    intro hns hcon
    apply hns
    rcases Bool.or_eq_true_iff.mp hcon with hc | hc
    · exact Or.inl (by simpa [List.isEmpty_iff] using hc)
    · exact Or.inr (by simpa [List.all_eq_true, beq_iff_eq] using hc)
  rcases hty with h | h
  · simp only [FieldValue.read_from, h]
    refine ⟨?_, ?_, ?_⟩
    · intro hs
      rw [if_pos (hcondt hs)]
      simp
    · intro hns hp
      rw [if_neg (hcondf hns)]
      simp only [hp]
    · intro v hns hp
      rw [if_neg (hcondf hns)]
      simp only [hp]
      simp
  · simp only [FieldValue.read_from, h]
    refine ⟨?_, ?_, ?_⟩
    · intro hs
      rw [if_pos (hcondt hs)]
      simp
    · intro hns hp
      rw [if_neg (hcondf hns)]
      simp only [hp]
    · intro v hns hp
      rw [if_neg (hcondf hns)]
      simp only [hp]
      simp

/-- C7 witness: an all-`*` Numeric slice decodes to the absent variant. -/
theorem c7_numeric_sentinels_witness :
    FieldValue.read_from [42, 42, 42] none ⟨.Numeric, 3, 0⟩ = .ok (.Numeric none) := by
  have h := (c7_numeric_sentinels [42, 42, 42] ⟨.Numeric, 3, 0⟩ (Or.inl rfl)).1
    (Or.inr (by decide))
  simpa using h

/-! ## Claim C8: the padding-trim characterization -/

theorem firstq_isSome_eq_hasq (l : List Nat) : (firstq l).isSome = hasq l := by
  induction l with
  | nil => rfl
  | cons b rest ih =>
    by_cases h0 : b = 0
    · simp [firstq, hasq, h0]
    · by_cases h32 : b = 32
      · simp [firstq, hasq, h0, h32, ih]
      · simp [firstq, hasq, h0, h32]

theorem trim_loop_some (l : List Nat) : ∀ (i f0 la : Nat),
    trim_loop l i (some f0) la = (some f0, if hasq l then i + lastq l else la) := by
  induction l with
  | nil => intro i f0 la; rfl
  | cons b rest ih =>
    intro i f0 la
    by_cases h0 : b = 0
    · simp [trim_loop, hasq, h0]
    · by_cases h32 : b = 32
      · rw [show trim_loop (b :: rest) i (some f0) la = trim_loop rest (i + 1) (some f0) la
          by simp [trim_loop, h0, h32]]
        rw [ih]
        rw [show hasq (b :: rest) = hasq rest by simp [hasq, h0, h32]]
        rw [show lastq (b :: rest) = if hasq rest then lastq rest + 1 else 0
          by simp [lastq, h0]]
        by_cases hq : hasq rest
        · rw [if_pos hq, if_pos hq, if_pos hq]
          simp only [Prod.mk.injEq, true_and]
          omega
        · rw [if_neg hq, if_neg hq]
      · rw [show trim_loop (b :: rest) i (some f0) la =
            trim_loop rest (i + 1) (some ((some f0).getD i)) i
          by simp [trim_loop, h0, h32]]
        rw [Option.getD_some, ih]
        rw [show hasq (b :: rest) = true by simp [hasq, h0, h32]]
        rw [show lastq (b :: rest) = if hasq rest then lastq rest + 1 else 0
          by simp [lastq, h0]]
        rw [if_pos rfl]
        by_cases hq : hasq rest
        · rw [if_pos hq, if_pos hq]
          simp only [Prod.mk.injEq, true_and]
          omega
        · rw [if_neg hq, if_neg hq]
          simp only [Prod.mk.injEq, true_and]
          omega

theorem trim_loop_none (l : List Nat) : ∀ (i la : Nat),
    trim_loop l i none la =
      (match firstq l with
       | none => (none, la)
       | some j => (some (i + j), i + lastq l)) := by
  induction l with
  | nil => intro i la; rfl
  | cons b rest ih =>
    intro i la
    by_cases h0 : b = 0
    · simp [trim_loop, firstq, h0]
    · by_cases h32 : b = 32
      · rw [show trim_loop (b :: rest) i none la = trim_loop rest (i + 1) none la
          by simp [trim_loop, h0, h32]]
        rw [ih]
        rw [show firstq (b :: rest) = (firstq rest).map (· + 1) by simp [firstq, h0, h32]]
        rcases hf : firstq rest with _ | j
        · rfl
        · have hq : hasq rest = true := by
            rw [← firstq_isSome_eq_hasq, hf]
            rfl
          rw [show lastq (b :: rest) = lastq rest + 1 by simp [lastq, h0, hq]]
          simp only [Option.map_some', Prod.mk.injEq, Option.some.injEq]
          constructor
          · omega
          · omega
      · rw [show trim_loop (b :: rest) i none la =
            trim_loop rest (i + 1) (some ((none : Option Nat).getD i)) i
          by simp [trim_loop, h0, h32]]
        rw [Option.getD_none, trim_loop_some]
        rw [show firstq (b :: rest) = some 0 by simp [firstq, h0, h32]]
        rw [show lastq (b :: rest) = if hasq rest then lastq rest + 1 else 0
          by simp [lastq, h0]]
        by_cases hq : hasq rest
        · rw [if_pos hq, if_pos hq]
          simp only [Prod.mk.injEq, Option.some.injEq]
          constructor
          · omega
          · omega
        · rw [if_neg hq, if_neg hq]
          simp only [Prod.mk.injEq, Option.some.injEq]
          constructor
          · omega
          · omega

/-- The span form of `trim_field_data`: empty when no byte qualifies, else
the bytes from the first through the last qualifying index. -/
theorem trim_field_data_span (bytes : List Nat) :
    trim_field_data bytes =
      (match firstq bytes with
       | none => []
       | some j => (bytes.drop j).take (lastq bytes + 1 - j)) := by
  unfold trim_field_data
  rw [trim_loop_none]
  rcases hf : firstq bytes with _ | j
  · rfl
  · simp

theorem strip_trailing_spaces_cons_of_ne {b : Nat} (xs : List Nat) (hb : b ≠ 32) :
    strip_trailing_spaces (b :: xs) = b :: strip_trailing_spaces xs := by
  unfold strip_trailing_spaces
  rw [show (b :: xs).reverse = xs.reverse ++ [b] by simp, List.dropWhile_append]
  by_cases he : (xs.reverse.dropWhile (fun x => x == 32)).isEmpty
  · rw [if_pos he]
    rw [List.isEmpty_iff] at he
    rw [he]
    simp [List.dropWhile_cons, hb]
  · rw [if_neg he]
    simp

theorem strip_trailing_spaces_cons_keep {b : Nat} {xs : List Nat}
    (h : strip_trailing_spaces xs ≠ []) :
    strip_trailing_spaces (b :: xs) = b :: strip_trailing_spaces xs := by
  unfold strip_trailing_spaces at h ⊢
  have he : ¬ (xs.reverse.dropWhile (fun x => x == 32)).isEmpty := by
    intro hcon
    rw [List.isEmpty_iff] at hcon
    rw [hcon] at h
    simp at h
  rw [show (b :: xs).reverse = xs.reverse ++ [b] by simp, List.dropWhile_append, if_neg he]
  simp

theorem strip_trailing_spaces_of_all_space {xs : List Nat} (h : ∀ x ∈ xs, x = 32) :
    strip_trailing_spaces xs = [] := by
  unfold strip_trailing_spaces
  rw [List.dropWhile_eq_nil_iff.mpr (by intro x hx; simp [h x (by simpa using hx)])]
  rfl

theorem hasq_false_pre_space {l : List Nat} (h : hasq l = false) :
    ∀ x ∈ l.takeWhile (fun b => decide (b ≠ 0)), x = 32 := by
  induction l with
  | nil => intro x hx; cases hx
  | cons b rest ih =>
    intro x hx
    by_cases h0 : b = 0
    · rw [List.takeWhile_cons, if_neg (by simp [h0])] at hx
      cases hx
    · by_cases h32 : b = 32
      · have hrest : hasq rest = false := by
          rw [show hasq (b :: rest) = hasq rest by simp [hasq, h0, h32]] at h
          exact h
        rw [List.takeWhile_cons, if_pos (by simp [h0])] at hx
        rcases List.mem_cons.mp hx with hx | hx
        · rw [hx, h32]
        · exact ih hrest x hx
      · rw [show hasq (b :: rest) = true by simp [hasq, h0, h32]] at h
        cases h

theorem hasq_ne_nil {l : List Nat} (h : hasq l = true) : l ≠ [] := by
  intro hcon
  rw [hcon] at h
  cases h

theorem take_lastq {l : List Nat} (h : hasq l = true) :
    l.take (lastq l + 1) =
      strip_trailing_spaces (l.takeWhile (fun b => decide (b ≠ 0))) := by
  induction l with
  | nil => cases h
  | cons b rest ih =>
    by_cases h0 : b = 0
    · rw [show hasq (b :: rest) = false by simp [hasq, h0]] at h
      cases h
    · by_cases h32 : b = 32
      · have hq : hasq rest = true := by
          rw [show hasq (b :: rest) = hasq rest by simp [hasq, h0, h32]] at h
          exact h
        rw [show lastq (b :: rest) = lastq rest + 1 by simp [lastq, h0, hq]]
        rw [List.take_succ_cons, ih hq]
        rw [List.takeWhile_cons, if_pos (by simp [h0])]
        have hne : strip_trailing_spaces (rest.takeWhile (fun b => decide (b ≠ 0))) ≠ [] := by
          rw [← ih hq]
          rcases rest with _ | ⟨y, ys⟩
          · cases hq
          · simp
        rw [strip_trailing_spaces_cons_keep hne]
      · rw [List.takeWhile_cons, if_pos (by simp [h0]),
          strip_trailing_spaces_cons_of_ne _ h32]
        by_cases hq : hasq rest
        · rw [show lastq (b :: rest) = lastq rest + 1 by simp [lastq, h0, hq]]
          rw [List.take_succ_cons, ih hq]
        · rw [show lastq (b :: rest) = 0 by simp [lastq, h0, hq]]
          rw [List.take_succ_cons, List.take_zero]
          rw [strip_trailing_spaces_of_all_space
            (hasq_false_pre_space (by simpa using hq))]

theorem all_space_firstq_none {bytes : List Nat} (h : ∀ b ∈ bytes, b = 32) :
    firstq bytes = none := by
  induction bytes with
  | nil => rfl
  | cons b rest ih =>
    have hb : b = 32 := h b (by simp)
    rw [show firstq (b :: rest) = (firstq rest).map (· + 1) by simp [firstq, hb]]
    rw [ih (fun x hx => h x (by simp [hx]))]
    rfl

/-- C8: the padding-trim function returns the empty slice when the input is
all spaces or begins with a `0x00` byte; in general it returns exactly the
minimal span described by the claim — of the bytes before the first `0x00`,
everything from the first non-space byte through the last (`trim_spec`) —
and the result is always a contiguous subslice of the input. -/
theorem c8_trim_characterization (bytes : List Nat) :
    ((∀ b ∈ bytes, b = 32) → trim_field_data bytes = []) ∧
    (∀ rest, bytes = 0 :: rest → trim_field_data bytes = []) ∧
    trim_field_data bytes = trim_spec bytes ∧
    (∃ s t, bytes = s ++ trim_field_data bytes ++ t) := by
  have hmain : ∀ l : List Nat, trim_field_data l = trim_spec l := by
    intro l
    induction l with
    | nil => rfl
    | cons b rest ih =>
      by_cases h0 : b = 0
      · rw [trim_field_data_span]
        rw [show firstq (b :: rest) = none by simp [firstq, h0]]
        unfold trim_spec
        rw [List.takeWhile_cons, if_neg (by simp [h0])]
        rfl
      · by_cases h32 : b = 32
        · have hstep : trim_field_data (b :: rest) = trim_field_data rest := by
            rw [trim_field_data_span, trim_field_data_span]
            rw [show firstq (b :: rest) = (firstq rest).map (· + 1)
              by simp [firstq, h0, h32]]
            rcases hf : firstq rest with _ | j
            · rfl
            · have hq : hasq rest = true := by
                rw [← firstq_isSome_eq_hasq, hf]
                rfl
              rw [show lastq (b :: rest) = lastq rest + 1 by simp [lastq, h0, hq]]
              simp only [Option.map_some', List.drop_succ_cons]
              congr 1
              omega
          have hspec : trim_spec (b :: rest) = trim_spec rest := by
            unfold trim_spec
            rw [List.takeWhile_cons, if_pos (by simp [h0]), List.dropWhile_cons,
              if_pos (by simp [h32])]
          rw [hstep, hspec, ih]
        · rw [trim_field_data_span]
          rw [show firstq (b :: rest) = some 0 by simp [firstq, h0, h32]]
          unfold trim_spec
          rw [List.takeWhile_cons, if_pos (by simp [h0]), List.dropWhile_cons,
            if_neg (by simp [h32]), strip_trailing_spaces_cons_of_ne _ h32]
          simp only [List.drop_zero, Nat.sub_zero]
          by_cases hq : hasq rest
          · rw [show lastq (b :: rest) = lastq rest + 1 by simp [lastq, h0, hq]]
            rw [List.take_succ_cons, take_lastq hq]
          · rw [show lastq (b :: rest) = 0 by simp [lastq, h0, hq]]
            rw [List.take_succ_cons, List.take_zero]
            rw [strip_trailing_spaces_of_all_space
              (hasq_false_pre_space (by simpa using hq))]
  refine ⟨?_, ?_, hmain bytes, ?_⟩
  · intro h
    rw [trim_field_data_span, all_space_firstq_none h]
  · intro rest h
    subst h
    rw [trim_field_data_span]
    rw [show firstq (0 :: rest) = none by simp [firstq]]
  · rw [trim_field_data_span]
    rcases hf : firstq bytes with _ | j
    · exact ⟨[], bytes, by simp⟩
    · refine ⟨bytes.take j, (bytes.drop j).drop (lastq bytes + 1 - j), ?_⟩
      rw [List.append_assoc, List.take_append_drop, List.take_append_drop]

/-- C8 witness: the characterization applied to the slice `" A "` followed
by a NUL and a `B`: the trim keeps exactly the byte `A`. -/
theorem c8_trim_characterization_witness :
    trim_field_data [32, 65, 32, 0, 66] = trim_spec [32, 65, 32, 0, 66] ∧
    trim_field_data [32, 65, 32, 0, 66] = [65] :=
  ⟨(c8_trim_characterization [32, 65, 32, 0, 66]).2.2.1, by decide⟩

/-! ## Claim C2: the Julian-day round trip

The backward conversion is pinned per month: writing `e` for the
`4 * f + 3` of `julian_day_number_to_gregorian_date`, every in-range date
satisfies `e / 1461 = y' + 4716` (with `y'` the March-based year) and
`e % 1461 / 4 = K + day - 1` (with `K` the month's day-of-March-year
offset); `decode_char` then evaluates the decoder on those two facts. -/

theorem decode_char (jdn y0 g : Nat)
    (hA : (4 * (jdn + 1401 + (4 * jdn + 274277) / 146097 * 3 / 4 - 38) + 3) / 1461 = y0)
    (hB : (4 * (jdn + 1401 + (4 * jdn + 274277) / 146097 * 3 / 4 - 38) + 3) % 1461 / 4 = g) :
    Date.julian_day_number_to_gregorian_date jdn =
      ⟨y0 - 4716 + (12 + 2 - (((5 * g + 2) / 153 + 2) % 12 + 1)) / 12,
       ((5 * g + 2) / 153 + 2) % 12 + 1,
       (5 * g + 2) % 153 / 5 + 1⟩ := by
  simp only [Date.julian_day_number_to_gregorian_date]
  rw [hA, hB]

set_option maxHeartbeats 1000000 in
theorem julian_rt_m3 (y d : Nat) (hy1 : 1 ≤ y) (hy2 : y ≤ 9999) (hd1 : 1 ≤ d)
    (hd2 : d ≤ 31) :
    Date.julian_day_number_to_gregorian_date
      (Date.to_julian_day_number ⟨y, 3, d⟩) = ⟨y, 3, d⟩ := by
  have henc : Date.to_julian_day_number ⟨y, 3, d⟩ =
      146097 * (y / 100) / 4 + 1461 * (y - 100 * (y / 100)) / 4 + 0 + d + 1721119 := by
    simp only [Date.to_julian_day_number]
    norm_num
  rw [henc]
  generalize hjdn : 146097 * (y / 100) / 4 + 1461 * (y - 100 * (y / 100)) / 4 + 0 + d + 1721119 = jdn
  have hq : (4 * jdn + 274277) / 146097 = y / 100 + 49 := by omega
  have ht : (4 * jdn + 274277) / 146097 * 3 / 4 = (3 * (y / 100) + 147) / 4 := by omega
  have hs : 146097 * (y / 100) / 4 + (3 * (y / 100) + 147) / 4 = 36525 * (y / 100) + 36 := by
    omega
  have hA : (4 * (jdn + 1401 + (4 * jdn + 274277) / 146097 * 3 / 4 - 38) + 3) / 1461 =
      y + 4716 := by omega
  have hB : (4 * (jdn + 1401 + (4 * jdn + 274277) / 146097 * 3 / 4 - 38) + 3) % 1461 / 4 =
      0 + (d - 1) := by omega
  rw [decode_char jdn (y + 4716) (0 + (d - 1)) hA hB]
  have hC : (5 * (0 + (d - 1)) + 2) / 153 = 0 := by omega
  have hD : (5 * (0 + (d - 1)) + 2) % 153 = 5 * (d - 1) + 2 := by omega
  simp only [Date.mk.injEq, hC, hD]
  refine ⟨?_, ?_, ?_⟩ <;> first | omega | trivial

set_option maxHeartbeats 1000000 in
theorem julian_rt_m4 (y d : Nat) (hy1 : 1 ≤ y) (hy2 : y ≤ 9999) (hd1 : 1 ≤ d)
    (hd2 : d ≤ 30) :
    Date.julian_day_number_to_gregorian_date
      (Date.to_julian_day_number ⟨y, 4, d⟩) = ⟨y, 4, d⟩ := by
  have henc : Date.to_julian_day_number ⟨y, 4, d⟩ =
      146097 * (y / 100) / 4 + 1461 * (y - 100 * (y / 100)) / 4 + 31 + d + 1721119 := by
    simp only [Date.to_julian_day_number]
    norm_num
  rw [henc]
  generalize hjdn : 146097 * (y / 100) / 4 + 1461 * (y - 100 * (y / 100)) / 4 + 31 + d + 1721119 = jdn
  have hq : (4 * jdn + 274277) / 146097 = y / 100 + 49 := by omega
  have ht : (4 * jdn + 274277) / 146097 * 3 / 4 = (3 * (y / 100) + 147) / 4 := by omega
  have hs : 146097 * (y / 100) / 4 + (3 * (y / 100) + 147) / 4 = 36525 * (y / 100) + 36 := by
    omega
  have hA : (4 * (jdn + 1401 + (4 * jdn + 274277) / 146097 * 3 / 4 - 38) + 3) / 1461 =
      y + 4716 := by omega
  have hB : (4 * (jdn + 1401 + (4 * jdn + 274277) / 146097 * 3 / 4 - 38) + 3) % 1461 / 4 =
      31 + (d - 1) := by omega
  rw [decode_char jdn (y + 4716) (31 + (d - 1)) hA hB]
  have hC : (5 * (31 + (d - 1)) + 2) / 153 = 1 := by omega
  have hD : (5 * (31 + (d - 1)) + 2) % 153 = 5 * (d - 1) + 4 := by omega
  simp only [Date.mk.injEq, hC, hD]
  refine ⟨?_, ?_, ?_⟩ <;> first | omega | trivial

set_option maxHeartbeats 1000000 in
theorem julian_rt_m5 (y d : Nat) (hy1 : 1 ≤ y) (hy2 : y ≤ 9999) (hd1 : 1 ≤ d)
    (hd2 : d ≤ 31) :
    Date.julian_day_number_to_gregorian_date
      (Date.to_julian_day_number ⟨y, 5, d⟩) = ⟨y, 5, d⟩ := by
  have henc : Date.to_julian_day_number ⟨y, 5, d⟩ =
      146097 * (y / 100) / 4 + 1461 * (y - 100 * (y / 100)) / 4 + 61 + d + 1721119 := by
    simp only [Date.to_julian_day_number]
    norm_num
  rw [henc]
  generalize hjdn : 146097 * (y / 100) / 4 + 1461 * (y - 100 * (y / 100)) / 4 + 61 + d + 1721119 = jdn
  have hq : (4 * jdn + 274277) / 146097 = y / 100 + 49 := by omega
  have ht : (4 * jdn + 274277) / 146097 * 3 / 4 = (3 * (y / 100) + 147) / 4 := by omega
  have hs : 146097 * (y / 100) / 4 + (3 * (y / 100) + 147) / 4 = 36525 * (y / 100) + 36 := by
    omega
  have hA : (4 * (jdn + 1401 + (4 * jdn + 274277) / 146097 * 3 / 4 - 38) + 3) / 1461 =
      y + 4716 := by omega
  have hB : (4 * (jdn + 1401 + (4 * jdn + 274277) / 146097 * 3 / 4 - 38) + 3) % 1461 / 4 =
      61 + (d - 1) := by omega
  rw [decode_char jdn (y + 4716) (61 + (d - 1)) hA hB]
  have hC : (5 * (61 + (d - 1)) + 2) / 153 = 2 := by omega
  have hD : (5 * (61 + (d - 1)) + 2) % 153 = 5 * (d - 1) + 1 := by omega
  simp only [Date.mk.injEq, hC, hD]
  refine ⟨?_, ?_, ?_⟩ <;> first | omega | trivial

set_option maxHeartbeats 1000000 in
theorem julian_rt_m6 (y d : Nat) (hy1 : 1 ≤ y) (hy2 : y ≤ 9999) (hd1 : 1 ≤ d)
    (hd2 : d ≤ 30) :
    Date.julian_day_number_to_gregorian_date
      (Date.to_julian_day_number ⟨y, 6, d⟩) = ⟨y, 6, d⟩ := by
  have henc : Date.to_julian_day_number ⟨y, 6, d⟩ =
      146097 * (y / 100) / 4 + 1461 * (y - 100 * (y / 100)) / 4 + 92 + d + 1721119 := by
    simp only [Date.to_julian_day_number]
    norm_num
  rw [henc]
  generalize hjdn : 146097 * (y / 100) / 4 + 1461 * (y - 100 * (y / 100)) / 4 + 92 + d + 1721119 = jdn
  have hq : (4 * jdn + 274277) / 146097 = y / 100 + 49 := by omega
  have ht : (4 * jdn + 274277) / 146097 * 3 / 4 = (3 * (y / 100) + 147) / 4 := by omega
  have hs : 146097 * (y / 100) / 4 + (3 * (y / 100) + 147) / 4 = 36525 * (y / 100) + 36 := by
    omega
  have hA : (4 * (jdn + 1401 + (4 * jdn + 274277) / 146097 * 3 / 4 - 38) + 3) / 1461 =
      y + 4716 := by omega
  have hB : (4 * (jdn + 1401 + (4 * jdn + 274277) / 146097 * 3 / 4 - 38) + 3) % 1461 / 4 =
      92 + (d - 1) := by omega
  rw [decode_char jdn (y + 4716) (92 + (d - 1)) hA hB]
  have hC : (5 * (92 + (d - 1)) + 2) / 153 = 3 := by omega
  have hD : (5 * (92 + (d - 1)) + 2) % 153 = 5 * (d - 1) + 3 := by omega
  simp only [Date.mk.injEq, hC, hD]
  refine ⟨?_, ?_, ?_⟩ <;> first | omega | trivial

set_option maxHeartbeats 1000000 in
theorem julian_rt_m7 (y d : Nat) (hy1 : 1 ≤ y) (hy2 : y ≤ 9999) (hd1 : 1 ≤ d)
    (hd2 : d ≤ 31) :
    Date.julian_day_number_to_gregorian_date
      (Date.to_julian_day_number ⟨y, 7, d⟩) = ⟨y, 7, d⟩ := by
  have henc : Date.to_julian_day_number ⟨y, 7, d⟩ =
      146097 * (y / 100) / 4 + 1461 * (y - 100 * (y / 100)) / 4 + 122 + d + 1721119 := by
    simp only [Date.to_julian_day_number]
    norm_num
  rw [henc]
  generalize hjdn : 146097 * (y / 100) / 4 + 1461 * (y - 100 * (y / 100)) / 4 + 122 + d + 1721119 = jdn
  have hq : (4 * jdn + 274277) / 146097 = y / 100 + 49 := by omega
  have ht : (4 * jdn + 274277) / 146097 * 3 / 4 = (3 * (y / 100) + 147) / 4 := by omega
  have hs : 146097 * (y / 100) / 4 + (3 * (y / 100) + 147) / 4 = 36525 * (y / 100) + 36 := by
    omega
  have hA : (4 * (jdn + 1401 + (4 * jdn + 274277) / 146097 * 3 / 4 - 38) + 3) / 1461 =
      y + 4716 := by omega
  have hB : (4 * (jdn + 1401 + (4 * jdn + 274277) / 146097 * 3 / 4 - 38) + 3) % 1461 / 4 =
      122 + (d - 1) := by omega
  rw [decode_char jdn (y + 4716) (122 + (d - 1)) hA hB]
  have hC : (5 * (122 + (d - 1)) + 2) / 153 = 4 := by omega
  have hD : (5 * (122 + (d - 1)) + 2) % 153 = 5 * (d - 1) + 0 := by omega
  simp only [Date.mk.injEq, hC, hD]
  refine ⟨?_, ?_, ?_⟩ <;> first | omega | trivial

set_option maxHeartbeats 1000000 in
theorem julian_rt_m8 (y d : Nat) (hy1 : 1 ≤ y) (hy2 : y ≤ 9999) (hd1 : 1 ≤ d)
    (hd2 : d ≤ 31) :
    Date.julian_day_number_to_gregorian_date
      (Date.to_julian_day_number ⟨y, 8, d⟩) = ⟨y, 8, d⟩ := by
  have henc : Date.to_julian_day_number ⟨y, 8, d⟩ =
      146097 * (y / 100) / 4 + 1461 * (y - 100 * (y / 100)) / 4 + 153 + d + 1721119 := by
    simp only [Date.to_julian_day_number]
    norm_num
  rw [henc]
  generalize hjdn : 146097 * (y / 100) / 4 + 1461 * (y - 100 * (y / 100)) / 4 + 153 + d + 1721119 = jdn
  have hq : (4 * jdn + 274277) / 146097 = y / 100 + 49 := by omega
  have ht : (4 * jdn + 274277) / 146097 * 3 / 4 = (3 * (y / 100) + 147) / 4 := by omega
  have hs : 146097 * (y / 100) / 4 + (3 * (y / 100) + 147) / 4 = 36525 * (y / 100) + 36 := by
    omega
  have hA : (4 * (jdn + 1401 + (4 * jdn + 274277) / 146097 * 3 / 4 - 38) + 3) / 1461 =
      y + 4716 := by omega
  have hB : (4 * (jdn + 1401 + (4 * jdn + 274277) / 146097 * 3 / 4 - 38) + 3) % 1461 / 4 =
      153 + (d - 1) := by omega
  rw [decode_char jdn (y + 4716) (153 + (d - 1)) hA hB]
  have hC : (5 * (153 + (d - 1)) + 2) / 153 = 5 := by omega
  have hD : (5 * (153 + (d - 1)) + 2) % 153 = 5 * (d - 1) + 2 := by omega
  simp only [Date.mk.injEq, hC, hD]
  refine ⟨?_, ?_, ?_⟩ <;> first | omega | trivial

set_option maxHeartbeats 1000000 in
theorem julian_rt_m9 (y d : Nat) (hy1 : 1 ≤ y) (hy2 : y ≤ 9999) (hd1 : 1 ≤ d)
    (hd2 : d ≤ 30) :
    Date.julian_day_number_to_gregorian_date
      (Date.to_julian_day_number ⟨y, 9, d⟩) = ⟨y, 9, d⟩ := by
  have henc : Date.to_julian_day_number ⟨y, 9, d⟩ =
      146097 * (y / 100) / 4 + 1461 * (y - 100 * (y / 100)) / 4 + 184 + d + 1721119 := by
    simp only [Date.to_julian_day_number]
    norm_num
  rw [henc]
  generalize hjdn : 146097 * (y / 100) / 4 + 1461 * (y - 100 * (y / 100)) / 4 + 184 + d + 1721119 = jdn
  have hq : (4 * jdn + 274277) / 146097 = y / 100 + 49 := by omega
  have ht : (4 * jdn + 274277) / 146097 * 3 / 4 = (3 * (y / 100) + 147) / 4 := by omega
  have hs : 146097 * (y / 100) / 4 + (3 * (y / 100) + 147) / 4 = 36525 * (y / 100) + 36 := by
    omega
  have hA : (4 * (jdn + 1401 + (4 * jdn + 274277) / 146097 * 3 / 4 - 38) + 3) / 1461 =
      y + 4716 := by omega
  have hB : (4 * (jdn + 1401 + (4 * jdn + 274277) / 146097 * 3 / 4 - 38) + 3) % 1461 / 4 =
      184 + (d - 1) := by omega
  rw [decode_char jdn (y + 4716) (184 + (d - 1)) hA hB]
  have hC : (5 * (184 + (d - 1)) + 2) / 153 = 6 := by omega
  have hD : (5 * (184 + (d - 1)) + 2) % 153 = 5 * (d - 1) + 4 := by omega
  simp only [Date.mk.injEq, hC, hD]
  refine ⟨?_, ?_, ?_⟩ <;> first | omega | trivial

set_option maxHeartbeats 1000000 in
theorem julian_rt_m10 (y d : Nat) (hy1 : 1 ≤ y) (hy2 : y ≤ 9999) (hd1 : 1 ≤ d)
    (hd2 : d ≤ 31) :
    Date.julian_day_number_to_gregorian_date
      (Date.to_julian_day_number ⟨y, 10, d⟩) = ⟨y, 10, d⟩ := by
  have henc : Date.to_julian_day_number ⟨y, 10, d⟩ =
      146097 * (y / 100) / 4 + 1461 * (y - 100 * (y / 100)) / 4 + 214 + d + 1721119 := by
    simp only [Date.to_julian_day_number]
    norm_num
  rw [henc]
  generalize hjdn : 146097 * (y / 100) / 4 + 1461 * (y - 100 * (y / 100)) / 4 + 214 + d + 1721119 = jdn
  have hq : (4 * jdn + 274277) / 146097 = y / 100 + 49 := by omega
  have ht : (4 * jdn + 274277) / 146097 * 3 / 4 = (3 * (y / 100) + 147) / 4 := by omega
  have hs : 146097 * (y / 100) / 4 + (3 * (y / 100) + 147) / 4 = 36525 * (y / 100) + 36 := by
    omega
  have hA : (4 * (jdn + 1401 + (4 * jdn + 274277) / 146097 * 3 / 4 - 38) + 3) / 1461 =
      y + 4716 := by omega
  have hB : (4 * (jdn + 1401 + (4 * jdn + 274277) / 146097 * 3 / 4 - 38) + 3) % 1461 / 4 =
      214 + (d - 1) := by omega
  rw [decode_char jdn (y + 4716) (214 + (d - 1)) hA hB]
  have hC : (5 * (214 + (d - 1)) + 2) / 153 = 7 := by omega
  have hD : (5 * (214 + (d - 1)) + 2) % 153 = 5 * (d - 1) + 1 := by omega
  simp only [Date.mk.injEq, hC, hD]
  refine ⟨?_, ?_, ?_⟩ <;> first | omega | trivial

set_option maxHeartbeats 1000000 in
theorem julian_rt_m11 (y d : Nat) (hy1 : 1 ≤ y) (hy2 : y ≤ 9999) (hd1 : 1 ≤ d)
    (hd2 : d ≤ 30) :
    Date.julian_day_number_to_gregorian_date
      (Date.to_julian_day_number ⟨y, 11, d⟩) = ⟨y, 11, d⟩ := by
  have henc : Date.to_julian_day_number ⟨y, 11, d⟩ =
      146097 * (y / 100) / 4 + 1461 * (y - 100 * (y / 100)) / 4 + 245 + d + 1721119 := by
    simp only [Date.to_julian_day_number]
    norm_num
  rw [henc]
  generalize hjdn : 146097 * (y / 100) / 4 + 1461 * (y - 100 * (y / 100)) / 4 + 245 + d + 1721119 = jdn
  have hq : (4 * jdn + 274277) / 146097 = y / 100 + 49 := by omega
  have ht : (4 * jdn + 274277) / 146097 * 3 / 4 = (3 * (y / 100) + 147) / 4 := by omega
  have hs : 146097 * (y / 100) / 4 + (3 * (y / 100) + 147) / 4 = 36525 * (y / 100) + 36 := by
    omega
  have hA : (4 * (jdn + 1401 + (4 * jdn + 274277) / 146097 * 3 / 4 - 38) + 3) / 1461 =
      y + 4716 := by omega
  have hB : (4 * (jdn + 1401 + (4 * jdn + 274277) / 146097 * 3 / 4 - 38) + 3) % 1461 / 4 =
      245 + (d - 1) := by omega
  rw [decode_char jdn (y + 4716) (245 + (d - 1)) hA hB]
  have hC : (5 * (245 + (d - 1)) + 2) / 153 = 8 := by omega
  have hD : (5 * (245 + (d - 1)) + 2) % 153 = 5 * (d - 1) + 3 := by omega
  simp only [Date.mk.injEq, hC, hD]
  refine ⟨?_, ?_, ?_⟩ <;> first | omega | trivial

set_option maxHeartbeats 1000000 in
theorem julian_rt_m12 (y d : Nat) (hy1 : 1 ≤ y) (hy2 : y ≤ 9999) (hd1 : 1 ≤ d)
    (hd2 : d ≤ 31) :
    Date.julian_day_number_to_gregorian_date
      (Date.to_julian_day_number ⟨y, 12, d⟩) = ⟨y, 12, d⟩ := by
  have henc : Date.to_julian_day_number ⟨y, 12, d⟩ =
      146097 * (y / 100) / 4 + 1461 * (y - 100 * (y / 100)) / 4 + 275 + d + 1721119 := by
    simp only [Date.to_julian_day_number]
    norm_num
  rw [henc]
  generalize hjdn : 146097 * (y / 100) / 4 + 1461 * (y - 100 * (y / 100)) / 4 + 275 + d + 1721119 = jdn
  have hq : (4 * jdn + 274277) / 146097 = y / 100 + 49 := by omega
  have ht : (4 * jdn + 274277) / 146097 * 3 / 4 = (3 * (y / 100) + 147) / 4 := by omega
  have hs : 146097 * (y / 100) / 4 + (3 * (y / 100) + 147) / 4 = 36525 * (y / 100) + 36 := by
    omega
  have hA : (4 * (jdn + 1401 + (4 * jdn + 274277) / 146097 * 3 / 4 - 38) + 3) / 1461 =
      y + 4716 := by omega
  have hB : (4 * (jdn + 1401 + (4 * jdn + 274277) / 146097 * 3 / 4 - 38) + 3) % 1461 / 4 =
      275 + (d - 1) := by omega
  rw [decode_char jdn (y + 4716) (275 + (d - 1)) hA hB]
  have hC : (5 * (275 + (d - 1)) + 2) / 153 = 9 := by omega
  have hD : (5 * (275 + (d - 1)) + 2) % 153 = 5 * (d - 1) + 0 := by omega
  simp only [Date.mk.injEq, hC, hD]
  refine ⟨?_, ?_, ?_⟩ <;> first | omega | trivial

set_option maxHeartbeats 1000000 in
theorem julian_rt_m1 (y d : Nat) (hy1 : 1 ≤ y) (hy2 : y ≤ 9999) (hd1 : 1 ≤ d) (hd2 : d ≤ 31) :
    Date.julian_day_number_to_gregorian_date
      (Date.to_julian_day_number ⟨y, 1, d⟩) = ⟨y, 1, d⟩ := by
  have henc : Date.to_julian_day_number ⟨y, 1, d⟩ =
      146097 * ((y - 1) / 100) / 4 + 1461 * (y - 1 - 100 * ((y - 1) / 100)) / 4 +
        306 + d + 1721119 := by
    simp only [Date.to_julian_day_number]
    norm_num
  rw [henc]
  generalize hjdn : 146097 * ((y - 1) / 100) / 4 + 1461 * (y - 1 - 100 * ((y - 1) / 100)) / 4 + 306 + d + 1721119 = jdn
  have hq : (4 * jdn + 274277) / 146097 = (y - 1) / 100 + 49 := by omega
  have ht : (4 * jdn + 274277) / 146097 * 3 / 4 = (3 * ((y - 1) / 100) + 147) / 4 := by
    omega
  have hs : 146097 * ((y - 1) / 100) / 4 + (3 * ((y - 1) / 100) + 147) / 4 =
      36525 * ((y - 1) / 100) + 36 := by omega
  have hA : (4 * (jdn + 1401 + (4 * jdn + 274277) / 146097 * 3 / 4 - 38) + 3) / 1461 =
      (y - 1) + 4716 := by omega
  have hB : (4 * (jdn + 1401 + (4 * jdn + 274277) / 146097 * 3 / 4 - 38) + 3) % 1461 / 4 =
      306 + (d - 1) := by omega
  rw [decode_char jdn ((y - 1) + 4716) (306 + (d - 1)) hA hB]
  have hC : (5 * (306 + (d - 1)) + 2) / 153 = 10 := by omega
  have hD : (5 * (306 + (d - 1)) + 2) % 153 = 5 * (d - 1) + 2 := by omega
  simp only [Date.mk.injEq, hC, hD]
  refine ⟨?_, ?_, ?_⟩ <;> first | omega | trivial

set_option maxHeartbeats 1000000 in
theorem julian_rt_feb_a (y d : Nat) (hy1 : 1 ≤ y) (hy2 : y ≤ 9999) (hd1 : 1 ≤ d) (hd2 : d ≤ 28) :
    Date.julian_day_number_to_gregorian_date
      (Date.to_julian_day_number ⟨y, 2, d⟩) = ⟨y, 2, d⟩ := by
  have henc : Date.to_julian_day_number ⟨y, 2, d⟩ =
      146097 * ((y - 1) / 100) / 4 + 1461 * (y - 1 - 100 * ((y - 1) / 100)) / 4 +
        337 + d + 1721119 := by
    simp only [Date.to_julian_day_number]
    norm_num
  rw [henc]
  generalize hjdn : 146097 * ((y - 1) / 100) / 4 + 1461 * (y - 1 - 100 * ((y - 1) / 100)) / 4 + 337 + d + 1721119 = jdn
  have hq : (4 * jdn + 274277) / 146097 = (y - 1) / 100 + 49 := by omega
  have ht : (4 * jdn + 274277) / 146097 * 3 / 4 = (3 * ((y - 1) / 100) + 147) / 4 := by
    omega
  have hs : 146097 * ((y - 1) / 100) / 4 + (3 * ((y - 1) / 100) + 147) / 4 =
      36525 * ((y - 1) / 100) + 36 := by omega
  have hA : (4 * (jdn + 1401 + (4 * jdn + 274277) / 146097 * 3 / 4 - 38) + 3) / 1461 =
      (y - 1) + 4716 := by omega
  have hB : (4 * (jdn + 1401 + (4 * jdn + 274277) / 146097 * 3 / 4 - 38) + 3) % 1461 / 4 =
      337 + (d - 1) := by omega
  rw [decode_char jdn ((y - 1) + 4716) (337 + (d - 1)) hA hB]
  have hC : (5 * (337 + (d - 1)) + 2) / 153 = 11 := by omega
  have hD : (5 * (337 + (d - 1)) + 2) % 153 = 5 * (d - 1) + 4 := by omega
  simp only [Date.mk.injEq, hC, hD]
  refine ⟨?_, ?_, ?_⟩ <;> first | omega | trivial

set_option maxHeartbeats 1000000 in
theorem julian_rt_feb_b (y d : Nat) (hy1 : 1 ≤ y) (hy2 : y ≤ 9999) (hd : d = 29) (h4 : y % 4 = 0) (h100 : y % 100 ≠ 0) :
    Date.julian_day_number_to_gregorian_date
      (Date.to_julian_day_number ⟨y, 2, d⟩) = ⟨y, 2, d⟩ := by
  have henc : Date.to_julian_day_number ⟨y, 2, d⟩ =
      146097 * ((y - 1) / 100) / 4 + 1461 * (y - 1 - 100 * ((y - 1) / 100)) / 4 +
        337 + d + 1721119 := by
    simp only [Date.to_julian_day_number]
    norm_num
  rw [henc]
  generalize hjdn : 146097 * ((y - 1) / 100) / 4 + 1461 * (y - 1 - 100 * ((y - 1) / 100)) / 4 + 337 + d + 1721119 = jdn
  have hr : (y - 1) % 100 ≤ 98 := by omega
  have hq : (4 * jdn + 274277) / 146097 = (y - 1) / 100 + 49 := by omega
  have ht : (4 * jdn + 274277) / 146097 * 3 / 4 = (3 * ((y - 1) / 100) + 147) / 4 := by
    omega
  have hs : 146097 * ((y - 1) / 100) / 4 + (3 * ((y - 1) / 100) + 147) / 4 =
      36525 * ((y - 1) / 100) + 36 := by omega
  have hA : (4 * (jdn + 1401 + (4 * jdn + 274277) / 146097 * 3 / 4 - 38) + 3) / 1461 =
      (y - 1) + 4716 := by omega
  have hB : (4 * (jdn + 1401 + (4 * jdn + 274277) / 146097 * 3 / 4 - 38) + 3) % 1461 / 4 =
      337 + (d - 1) := by omega
  rw [decode_char jdn ((y - 1) + 4716) (337 + (d - 1)) hA hB]
  have hC : (5 * (337 + (d - 1)) + 2) / 153 = 11 := by omega
  have hD : (5 * (337 + (d - 1)) + 2) % 153 = 5 * (d - 1) + 4 := by omega
  simp only [Date.mk.injEq, hC, hD]
  refine ⟨?_, ?_, ?_⟩ <;> first | omega | trivial

set_option maxHeartbeats 1000000 in
theorem julian_rt_feb_c (y d : Nat) (hy1 : 1 ≤ y) (hy2 : y ≤ 9999) (hd : d = 29) (h400 : y % 400 = 0) :
    Date.julian_day_number_to_gregorian_date
      (Date.to_julian_day_number ⟨y, 2, d⟩) = ⟨y, 2, d⟩ := by
  subst hd
  obtain ⟨k, rfl⟩ : ∃ k, y = 400 * k := ⟨y / 400, by omega⟩
  have hk1 : 1 ≤ k := by omega
  have hk2 : k ≤ 24 := by omega
  have henc : Date.to_julian_day_number ⟨400 * k, 2, 29⟩ =
      146097 * ((400 * k - 1) / 100) / 4 +
        1461 * (400 * k - 1 - 100 * ((400 * k - 1) / 100)) / 4 + 337 + 29 + 1721119 := by
    simp only [Date.to_julian_day_number]
    norm_num
  have hc : (400 * k - 1) / 100 = 4 * k - 1 := by omega
  have hbig : 146097 * ((400 * k - 1) / 100) / 4 +
      1461 * (400 * k - 1 - 100 * ((400 * k - 1) / 100)) / 4 + 337 + 29 + 1721119 =
      146097 * k + 1721119 := by
    rw [hc]
    omega
  rw [henc, hbig]
  generalize hjdn : 146097 * k + 1721119 = jdn
  have hq : (4 * jdn + 274277) / 146097 = 4 * k + 49 := by omega
  have ht : (4 * jdn + 274277) / 146097 * 3 / 4 = 3 * k + 36 := by omega
  have hA : (4 * (jdn + 1401 + (4 * jdn + 274277) / 146097 * 3 / 4 - 38) + 3) / 1461 =
      400 * k + 4715 := by omega
  have hB : (4 * (jdn + 1401 + (4 * jdn + 274277) / 146097 * 3 / 4 - 38) + 3) % 1461 / 4 =
      337 + (29 - 1) := by omega
  rw [decode_char jdn (400 * k + 4715) (337 + (29 - 1)) hA hB]
  have hC : (5 * (337 + (29 - 1)) + 2) / 153 = 11 := by omega
  have hD : (5 * (337 + (29 - 1)) + 2) % 153 = 5 * (29 - 1) + 4 := by omega
  simp only [Date.mk.injEq, hC, hD]
  refine ⟨?_, ?_, ?_⟩ <;> first | omega | trivial

theorem julian_rt_m2 (y d : Nat) (hy1 : 1 ≤ y) (hy2 : y ≤ 9999) (hd1 : 1 ≤ d)
    (hd2 : d ≤ days_in_month y 2) :
    Date.julian_day_number_to_gregorian_date
      (Date.to_julian_day_number ⟨y, 2, d⟩) = ⟨y, 2, d⟩ := by
  have h29 : d ≤ (if is_gregorian_leap_year y then 29 else 28) := by
    simpa [days_in_month] using hd2
  by_cases hL : is_gregorian_leap_year y = true
  · rw [if_pos hL] at h29
    have hL2 : y % 4 = 0 ∧ (y % 100 ≠ 0 ∨ y % 400 = 0) := by
      simpa [is_gregorian_leap_year, Bool.and_eq_true, Bool.or_eq_true, beq_iff_eq,
        bne_iff_ne, decide_eq_true_eq] using hL
    rcases Nat.lt_or_ge d 29 with hdlt | hdge
    · exact julian_rt_feb_a y d hy1 hy2 hd1 (by omega)
    · have hd29 : d = 29 := by omega
      rcases hL2 with ⟨h4, h100 | h400⟩
      · exact julian_rt_feb_b y d hy1 hy2 hd29 h4 h100
      · exact julian_rt_feb_c y d hy1 hy2 hd29 h400
  · rw [if_neg hL] at h29
    exact julian_rt_feb_a y d hy1 hy2 hd1 h29

/-- C2: for every calendar date with year between 1 and 9999, month 1..12
and day valid for that month (Gregorian rules), converting the date to a
Julian day number and back returns exactly the same date. -/
theorem c2_julian_day_round_trip (dt : Date) (hy1 : 1 ≤ dt.year) (hy2 : dt.year ≤ 9999)
    (hm1 : 1 ≤ dt.month) (hm2 : dt.month ≤ 12) (hd1 : 1 ≤ dt.day)
    (hd2 : dt.day ≤ days_in_month dt.year dt.month) :
    Date.julian_day_number_to_gregorian_date dt.to_julian_day_number = dt := by
  obtain ⟨y, m, d⟩ := dt
  simp only at hy1 hy2 hm1 hm2 hd1 hd2
  interval_cases m
  · exact julian_rt_m1 y d hy1 hy2 hd1 (by simpa [days_in_month] using hd2)
  · exact julian_rt_m2 y d hy1 hy2 hd1 hd2
  · exact julian_rt_m3 y d hy1 hy2 hd1 (by simpa [days_in_month] using hd2)
  · exact julian_rt_m4 y d hy1 hy2 hd1 (by simpa [days_in_month] using hd2)
  · exact julian_rt_m5 y d hy1 hy2 hd1 (by simpa [days_in_month] using hd2)
  · exact julian_rt_m6 y d hy1 hy2 hd1 (by simpa [days_in_month] using hd2)
  · exact julian_rt_m7 y d hy1 hy2 hd1 (by simpa [days_in_month] using hd2)
  · exact julian_rt_m8 y d hy1 hy2 hd1 (by simpa [days_in_month] using hd2)
  · exact julian_rt_m9 y d hy1 hy2 hd1 (by simpa [days_in_month] using hd2)
  · exact julian_rt_m10 y d hy1 hy2 hd1 (by simpa [days_in_month] using hd2)
  · exact julian_rt_m11 y d hy1 hy2 hd1 (by simpa [days_in_month] using hd2)
  · exact julian_rt_m12 y d hy1 hy2 hd1 (by simpa [days_in_month] using hd2)

/-- C2 witness: the round trip evaluated at 2019-07-20 (Julian day number
2458685, the value the repository's own tests use). -/
theorem c2_julian_day_round_trip_witness :
    Date.to_julian_day_number ⟨2019, 7, 20⟩ = 2458685 ∧
    Date.julian_day_number_to_gregorian_date
      (Date.to_julian_day_number ⟨2019, 7, 20⟩) = ⟨2019, 7, 20⟩ :=
  ⟨by decide,
   c2_julian_day_round_trip ⟨2019, 7, 20⟩ (by decide) (by decide) (by decide) (by decide)
     (by decide) (by decide)⟩

end DbaseRs
